import Mathlib

/-!
# ws `BufferUtil` (src/bufferutil.cc): `Merge`, `Unmask`, `Mask`

A shallow embedding of the three native functions of `class BufferUtil`, and the properties
of them that the specification states.

* A node `Buffer` is a list of bytes (`unsigned char`, `Fin 256`); the arguments of a call
  are distinct, non-overlapping buffers.
* The C++ functions index raw pointers and never check a bound. An access outside the buffer
  it goes through is undefined behaviour in C++. The source has no exit at such an access:
  the compiled function goes on, and what it reads or overwrites there is not part of any
  buffer. The embedding follows a run up to its first access outside a buffer and records
  it as `Outcome.outOfBounds`, with the buffers as they are just before that access; nothing
  is said about the run after it. `Outcome.outOfBounds` is not a failure reported to the
  caller (`Outcome.reportsFailure`), and the counter of a loop, which no access changes, is
  followed through such accesses (`UnmaskVisits`, `MaskVisits`).
* Every function ends with `return scope.Close(True())`; this is `Outcome.returned true`.
  No path of the source returns anything else or throws.
* `int` is a 32 bit two's complement integer and `size_t` a 64 bit unsigned integer. A
  conversion to `int` (`Int32Value()`, `array->Length()` and `Buffer::Length` stored in an
  `int`) reduces modulo `2^32` (`toInt`), a conversion to `size_t` modulo `2^64` (`toSizeT`).
* The overflow of `int` arithmetic is undefined behaviour in C++. In `Unmask` and `Mask` the
  increment `++i` and the index `dataOffset + i` are computed exactly: a compiler may take
  it that they do not overflow, and an optimising one for a 64 bit target keeps both in
  64 bit registers. In `Merge` the counter stays below `arrayLength` and cannot overflow;
  the running `offset` is stored as an `int` (`toInt`), and the properties of `Merge` below
  that depend on the sum have the total length within the range of `int`.
* The loops are recursive functions with an iteration budget; the entry points give them one
  more than the length of the buffer (array) they walk, which is never used up
  (`Unmask_ne_outOfFuel`, `Mask_ne_outOfFuel`, `Merge_ne_outOfFuel`).
* `UnmaskVisits`, `MaskVisits` and `MergeOffsets` give the visited counter values,
  respectively the offsets at the start of the iterations, of the same loops; `rot` is the
  key rotation a caller of chunked masking performs.
-/

namespace BufferUtil

/-- An `unsigned char`. -/
abbrev Byte := Fin 256

/-- The value of an `int` that is assigned the integer `z`: reduction modulo `2^32` into
`[-2^31, 2^31)`. -/
def toInt (z : Int) : Int := (z + 2147483648) % 4294967296 - 2147483648

/-- The value of a `size_t` that is assigned the integer `z`: reduction modulo `2^64`. -/
def toSizeT (z : Int) : Nat := (z % 18446744073709551616).toNat

/-- The largest size of an object in memory (`PTRDIFF_MAX` with a 64 bit `size_t`). -/
def PTRDIFF_MAX : Nat := 9223372036854775807

/-- A byte buffer that exists in memory: a list of bytes no longer than `PTRDIFF_MAX`. -/
abbrev Buffer := { bytes : List Byte // bytes.length ≤ PTRDIFF_MAX }

/-- The result of `Buffer::Length(obj)`, a `size_t`. -/
def Length (b : List Byte) : Nat := b.length % 18446744073709551616

/-- How a run of one of the native functions ends. -/
inductive Outcome (μ : Type) where
  /-- The function reached its `return`; `value` is the boolean handed back to the caller. -/
  | returned (value : Bool) (mem : μ)
  /-- The function accessed memory outside a buffer; `mem` is the memory before the first
  such access. The run is not followed further. -/
  | outOfBounds (mem : μ)
  /-- The iteration budget of the embedding ran out (never produced by the entry points). -/
  | outOfFuel
deriving DecidableEq

/-- Whether the outcome is a failure reported to the caller: the function came back with a
value other than `True()`. -/
def Outcome.reportsFailure {μ : Type} : Outcome μ → Bool
  | .returned value _ => !value
  | _ => false

/-- The buffers as the outcome records them: at the `return`, or just before the first
access outside a buffer. -/
def Outcome.memory? {μ : Type} : Outcome μ → Option μ
  | .returned _ mem => some mem
  | .outOfBounds mem => some mem
  | .outOfFuel => none

/-- Read `p[i]` for an `int` index. -/
def load (p : List Byte) (i : Int) : Option Byte :=
  if 0 ≤ i then p[i.toNat]? else none

/-- Write `p[i] = v` for an `int` index. -/
def store (p : List Byte) (i : Int) (v : Byte) : Option (List Byte) :=
  if 0 ≤ i ∧ i.toNat < p.length then some (p.set i.toNat v) else none

/-- The buffers `Unmask` works on. -/
structure UnmaskMem where
  buffer : List Byte
  mask : List Byte
deriving DecidableEq

/-- The body of the loop of `Unmask`, `buffer[i] ^= mask[i % 4]`: the buffer after it, or
`none` when one of its accesses is out of bounds. -/
def unmaskBody (mask : List Byte) (i : Int) (buffer : List Byte) : Option (List Byte) :=
  match load mask (i.tmod 4), load buffer i with
  | some m, some b => store buffer i (b ^^^ m)
  | _, _ => none

/-- The loop of `Unmask`: `for (i = 0; i < length; ++i) buffer[i] ^= mask[i % 4];`
from the counter value `i` on. `i` is an `int`, `length` a `size_t`; the test converts `i` to
`size_t`, the increment is exact. -/
def unmaskLoop (mask : List Byte) (length : Nat) : Nat → Int → List Byte → Outcome UnmaskMem
  | 0, _, _ => .outOfFuel
  | fuel + 1, i, buffer =>
    if toSizeT i < length then
      match unmaskBody mask i buffer with
      | some buffer1 => unmaskLoop mask length fuel (i + 1) buffer1
      | none => .outOfBounds ⟨buffer, mask⟩
    else .returned true ⟨buffer, mask⟩

/-- `BufferUtil::Unmask(buffer, mask)`. -/
def Unmask (buffer mask : List Byte) : Outcome UnmaskMem :=
  unmaskLoop mask (Length buffer) (buffer.length + 1) 0 buffer

/-- The buffers `Mask` works on. -/
structure MaskMem where
  buffer : List Byte
  mask : List Byte
  output : List Byte
deriving DecidableEq

/-- The body of the loop of `Mask`, `output[dataOffset + i] = buffer[i] ^ mask[i % 4]`: the
output after it, or `none` when one of its accesses is out of bounds. The index
`dataOffset + i` is exact. -/
def maskBody (buffer mask : List Byte) (dataOffset i : Int) (output : List Byte) :
    Option (List Byte) :=
  match load buffer i, load mask (i.tmod 4) with
  | some b, some m => store output (dataOffset + i) (b ^^^ m)
  | _, _ => none

/-- The loop of `Mask`:
`for (i = 0; i < length; ++i) output[dataOffset + i] = buffer[i] ^ mask[i % 4];`
from the counter value `i` on. `i` and `dataOffset` are `int`, `length` a `size_t`; the test
converts `i` to `size_t`, the increment is exact. -/
def maskLoop (buffer mask : List Byte) (length : Nat) (dataOffset : Int) :
    Nat → Int → List Byte → Outcome MaskMem
  | 0, _, _ => .outOfFuel
  | fuel + 1, i, output =>
    if toSizeT i < length then
      match maskBody buffer mask dataOffset i output with
      | some output1 => maskLoop buffer mask length dataOffset fuel (i + 1) output1
      | none => .outOfBounds ⟨buffer, mask, output⟩
    else .returned true ⟨buffer, mask, output⟩

/-- `BufferUtil::Mask(buffer, mask, output, offset)`. `args[3]->Int32Value()` converts the
offset, an integral number, to an `int` by reduction modulo `2^32`. -/
def Mask (buffer mask output : List Byte) (offset : Int) : Outcome MaskMem :=
  maskLoop buffer mask (Length buffer) (toInt offset) (buffer.length + 1) 0 output

/-- The buffers `Merge` works on. -/
structure MergeMem where
  buffer : List Byte
  array : List (List Byte)
deriving DecidableEq

/-- The call `memcpy(dst + offset, src, n)`: `n` bytes are read from the start of `src` and
written to `dst` from `offset` on. -/
def memcpy (dst : List Byte) (offset : Int) (src : List Byte) (n : Nat) : Option (List Byte) :=
  if 0 ≤ offset ∧ offset.toNat + n ≤ dst.length ∧ n ≤ src.length then
    some (dst.take offset.toNat ++ (src.take n ++ dst.drop (offset.toNat + n)))
  else none

/-- The element `array->Get(i)` for an `int` index. -/
def getAt (array : List (List Byte)) (i : Int) : Option (List Byte) :=
  if 0 ≤ i then array[i.toNat]? else none

/-- The body of the loop of `Merge`:
`src = array->Get(i); int length = Buffer::Length(src);`
`memcpy(buffer + offset, Buffer::Data(src), length); offset += length;`
It gives the new `offset` and the buffer after the copy, or `none` when an access is out of
bounds. `length` and `offset` are `int`; `memcpy` takes its count as a `size_t`. -/
def mergeBody (array : List (List Byte)) (i offset : Int) (buffer : List Byte) :
    Option (Int × List Byte) :=
  match getAt array i with
  | some src =>
    (memcpy buffer offset src (toSizeT (toInt (Length src)))).map
      (fun buffer1 => (toInt (offset + toInt (Length src)), buffer1))
  | none => none

/-- The loop of `Merge`: `for (i = 0; i < arrayLength; ++i) { ... }` from the counter value
`i` and the write position `offset` on. `i` and `arrayLength` are `int`. -/
def mergeLoop (array : List (List Byte)) (arrayLength : Int) :
    Nat → Int → Int → List Byte → Outcome MergeMem
  | 0, _, _, _ => .outOfFuel
  | fuel + 1, i, offset, buffer =>
    if i < arrayLength then
      match mergeBody array i offset buffer with
      | some (offset1, buffer1) => mergeLoop array arrayLength fuel (toInt (i + 1)) offset1 buffer1
      | none => .outOfBounds ⟨buffer, array⟩
    else .returned true ⟨buffer, array⟩

/-- `BufferUtil::Merge(buffer, array)`; `array->Length()` is a `uint32_t` stored in an
`int`. -/
def Merge (buffer : List Byte) (array : List (List Byte)) : Outcome MergeMem :=
  mergeLoop array (toInt ((array.length % 4294967296 : Nat) : Int)) (array.length + 1) 0 0 buffer

/-- The key byte `mask[j % 4]`, `0` when the mask has no such byte. -/
def keyAt (mask : List Byte) (j : Nat) : Byte := mask.getD (j % 4) 0


/-- The rotated key of the chunked-masking rule: `rot(M, k)[j] = M[(j + k) mod 4]` for
`j = 0, 1, 2, 3`. This is what a caller computes, not code of `bufferutil.cc`. -/
def rot (M : List Byte) (k : Nat) : List Byte :=
  (List.range 4).map (fun j => M.getD ((j + k) % 4) 0)

/-- The values of `offset` at the start of the iterations of the loop of `Merge`, in the
order of the run: `mergeLoop` with the offsets as its result. -/
def mergeOffsets (array : List (List Byte)) (arrayLength : Int) :
    Nat → Int → Int → List Byte → List Int
  | 0, _, _, _ => []
  | fuel + 1, i, offset, buffer =>
    if i < arrayLength then
      match mergeBody array i offset buffer with
      | some (offset1, buffer1) =>
        offset :: mergeOffsets array arrayLength fuel (toInt (i + 1)) offset1 buffer1
      | none => [offset]
    else []

/-- The values of `offset` at the start of the iterations of `Merge(buffer, array)`. -/
def MergeOffsets (buffer : List Byte) (array : List (List Byte)) : List Int :=
  mergeOffsets array (toInt ((array.length % 4294967296 : Nat) : Int)) (array.length + 1) 0 0
    buffer

theorem toInt_natCast (k : Nat) (h : k < 2147483648) : toInt (k : Int) = (k : Int) := by
  unfold toInt; omega

theorem toSizeT_natCast (k : Nat) (h : k < 18446744073709551616) : toSizeT (k : Int) = k := by
  unfold toSizeT; omega

theorem toInt_add_natCast (off k : Nat) (h : off + k < 2147483648) :
    toInt ((off : Int) + (k : Int)) = ((off + k : Nat) : Int) := by
  rw [← Nat.cast_add, toInt_natCast _ h]

theorem tmod_natCast (k : Nat) : (k : Int).tmod 4 = ((k % 4 : Nat) : Int) := by
  rw [Int.tmod_eq_emod] <;> omega

theorem load_natCast (p : List Byte) (k : Nat) : load p (k : Int) = p[k]? := by
  simp [load]

theorem store_natCast (p : List Byte) (k : Nat) (v : Byte) (h : k < p.length) :
    store p (k : Int) v = some (p.set k v) := by
  simp [store, h]

theorem store_natCast_none (p : List Byte) (k : Nat) (v : Byte) (h : p.length ≤ k) :
    store p (k : Int) v = none := by
  rw [store, if_neg]
  rw [Int.toNat_ofNat]
  omega

theorem xor_xor_cancel (b m : Byte) : (b ^^^ m) ^^^ m = b := by
  apply Fin.ext
  show ((b.val ^^^ m.val) % 256 ^^^ m.val) % 256 = b.val
  have hb := b.isLt
  have hm := m.isLt
  have h : b.val ^^^ m.val < 2 ^ 8 := Nat.xor_lt_two_pow (by omega) (by omega)
  rw [Nat.mod_eq_of_lt (by omega : b.val ^^^ m.val < 256), Nat.xor_assoc, Nat.xor_self,
    Nat.xor_zero, Nat.mod_eq_of_lt hb]

theorem keyAt_eq (mask : List Byte) (i : Nat) (h : i % 4 < mask.length) :
    keyAt mask i = mask[i % 4] := by
  rw [keyAt, List.getD_eq_getElem?_getD, List.getElem?_eq_getElem h]
  rfl

theorem load_mask (mask : List Byte) (k : Nat) (hm : k % 4 < mask.length) :
    load mask ((k : Int).tmod 4) = some (keyAt mask k) := by
  rw [tmod_natCast, load_natCast, keyAt, List.getD_eq_getElem?_getD, List.getElem?_eq_getElem hm]
  rfl

theorem load_mask_none (mask : List Byte) (k : Nat) (hm : mask.length ≤ k % 4) :
    load mask ((k : Int).tmod 4) = none := by
  rw [tmod_natCast, load_natCast, List.getElem?_eq_none hm]

theorem Length_eq (b : List Byte) (h : b.length ≤ PTRDIFF_MAX) : Length b = b.length := by
  unfold PTRDIFF_MAX at h
  unfold Length
  omega

theorem unmaskBody_eq (mask : List Byte) (k : Nat) (hm : k % 4 < mask.length) (buf : List Byte)
    (hb : k < buf.length) :
    unmaskBody mask (k : Int) buf = some (buf.set k (buf[k] ^^^ keyAt mask k)) := by
  rw [unmaskBody, load_mask mask k hm, load_natCast buf k, List.getElem?_eq_getElem hb]
  exact store_natCast buf k _ hb

theorem unmaskBody_none (mask : List Byte) (k : Nat) (hm : mask.length ≤ k % 4)
    (buf : List Byte) : unmaskBody mask (k : Int) buf = none := by
  rw [unmaskBody, load_mask_none mask k hm]

theorem unmaskLoop_step (mask : List Byte) (len : Nat) (fuel k : Nat) (hm : k % 4 < mask.length)
    (buf : List Byte) (hk : k < 18446744073709551616) (hlen : k < len) (hb : k < buf.length) :
    unmaskLoop mask len (fuel + 1) (k : Int) buf
      = unmaskLoop mask len fuel ((k + 1 : Nat) : Int)
          (buf.set k (buf[k] ^^^ keyAt mask k)) := by
  rw [unmaskLoop, toSizeT_natCast k hk, if_pos hlen, unmaskBody_eq mask k hm buf hb]
  rfl

theorem unmaskLoop_fault (mask : List Byte) (len : Nat) (fuel k : Nat)
    (hm : mask.length ≤ k % 4) (buf : List Byte) (hk : k < 18446744073709551616)
    (hlen : k < len) :
    unmaskLoop mask len (fuel + 1) (k : Int) buf = .outOfBounds ⟨buf, mask⟩ := by
  rw [unmaskLoop, toSizeT_natCast k hk, if_pos hlen, unmaskBody_none mask k hm buf]

/-- The loop of `Unmask` run for `n` iterations from the counter value `k`: the bytes at
`k .. k + n - 1` are XOR-ed with the key, the others are kept. -/
theorem unmaskLoop_run (mask : List Byte) (len : Nat) :
    ∀ (n k fuel : Nat) (buf : List Byte), k + n ≤ buf.length →
      k + n ≤ 18446744073709551616 →
      k + n ≤ len → n ≤ fuel → (∀ j, j < k + n → j % 4 < mask.length) →
      ∃ out : List Byte, out.length = buf.length ∧
        (∀ j, out[j]? = if k ≤ j ∧ j < k + n then buf[j]?.map (fun b => b ^^^ keyAt mask j)
          else buf[j]?) ∧
        unmaskLoop mask len fuel (k : Int) buf
          = unmaskLoop mask len (fuel - n) ((k + n : Nat) : Int) out := by
  intro n
  induction n with
  | zero =>
    intro k fuel buf _ _ _ _ _
    refine ⟨buf, rfl, ?_, rfl⟩
    intro j
    rw [if_neg (by omega)]
  | succ n ih =>
    intro k fuel buf h1 h2 h3 h4 hm
    obtain ⟨f, rfl⟩ : ∃ f, fuel = f + 1 := ⟨fuel - 1, by omega⟩
    have hkl : k < buf.length := by omega
    have hb : buf[k]? = some buf[k] := List.getElem?_eq_getElem hkl
    obtain ⟨out, ho1, ho2, ho3⟩ := ih (k + 1) f (buf.set k (buf[k] ^^^ keyAt mask k))
      (by rw [List.length_set]; omega) (by omega) (by omega) (by omega)
      (fun j hj => hm j (by omega))
    refine ⟨out, by rw [ho1, List.length_set], ?_, ?_⟩
    · intro j
      rw [ho2 j, List.getElem?_set]
      by_cases hj : k = j
      · subst hj
        rw [if_neg (by omega), if_pos rfl, if_pos hkl, if_pos (by omega), hb]
        rfl
      · rw [if_neg hj]
        by_cases hj2 : k + 1 ≤ j ∧ j < k + 1 + n
        · rw [if_pos hj2, if_pos (by omega)]
        · rw [if_neg hj2, if_neg (by omega)]
    · rw [unmaskLoop_step mask len f k (hm k (by omega)) buf (by omega) (by omega) hkl, ho3]
      have e1 : f + 1 - (n + 1) = f - n := by omega
      have e2 : k + 1 + n = k + (n + 1) := by omega
      rw [e1, e2]

/-- `Unmask` on a buffer that fits in memory, when its first `n` iterations find their key
byte: if they are all the iterations the loop makes (`n` is the length), `true` is returned;
if iteration `n` finds no key byte, the first access outside a buffer is made there. Exactly
the bytes below `n` are XOR-ed with the key. -/
theorem Unmask_run_to (buffer mask : List Byte) (n : Nat) (hfit : buffer.length ≤ PTRDIFF_MAX)
    (hn : n ≤ buffer.length) (hm : ∀ j, j < n → j % 4 < mask.length)
    (hend : n = buffer.length ∨ mask.length ≤ n % 4) :
    ∃ out : List Byte, out.length = buffer.length ∧
      (∀ j, out[j]? = if j < n then buffer[j]?.map (fun b => b ^^^ keyAt mask j)
        else buffer[j]?) ∧
      Unmask buffer mask = if n = buffer.length
        then .returned true ⟨out, mask⟩ else .outOfBounds ⟨out, mask⟩ := by
  have hlen := Length_eq buffer hfit
  unfold PTRDIFF_MAX at hfit
  obtain ⟨out, ho1, ho2, ho3⟩ := unmaskLoop_run mask (Length buffer) n 0 (buffer.length + 1)
    buffer (by omega) (by omega) (by omega) (by omega) (fun j hj => hm j (by omega))
  refine ⟨out, ho1, ?_, ?_⟩
  · intro j
    rw [ho2 j]
    by_cases hj : j < n
    · rw [if_pos hj, if_pos (by omega)]
    · rw [if_neg hj, if_neg (by omega)]
  · have h0 : ((0 : Nat) : Int) = 0 := rfl
    rw [h0] at ho3
    rw [Unmask, ho3, Nat.zero_add]
    obtain ⟨f, hf⟩ : ∃ f, buffer.length + 1 - n = f + 1 := ⟨buffer.length - n, by omega⟩
    rw [hf]
    by_cases hL : n = buffer.length
    · rw [if_pos hL, unmaskLoop, if_neg]
      rw [hlen, toSizeT_natCast _ (by omega)]
      omega
    · rw [if_neg hL]
      exact unmaskLoop_fault mask (Length buffer) f n (by omega) out (by omega) (by omega)

/-- What `Unmask` does to any buffer that fits in memory, with a mask of at least 4 bytes: it
returns `true`, and every byte is XOR-ed with its key byte. -/
theorem Unmask_eq (buffer mask : List Byte) (hm : 4 ≤ mask.length)
    (hfit : buffer.length ≤ PTRDIFF_MAX) :
    ∃ out : List Byte, Unmask buffer mask = .returned true ⟨out, mask⟩ ∧
      out.length = buffer.length ∧
      ∀ j, out[j]? = buffer[j]?.map (fun b => b ^^^ keyAt mask j) := by
  obtain ⟨out, h1, h2, h3⟩ := Unmask_run_to buffer mask buffer.length hfit (Nat.le_refl _)
    (fun j _ => by omega) (Or.inl rfl)
  rw [if_pos rfl] at h3
  refine ⟨out, h3, h1, ?_⟩
  intro j
  rw [h2 j]
  by_cases hj : j < buffer.length
  · rw [if_pos hj]
  · rw [if_neg hj, List.getElem?_eq_none (by omega)]
    rfl

theorem maskBody_eq (buffer mask : List Byte) (off k : Nat) (hm : k % 4 < mask.length)
    (output : List Byte) (hb : k < buffer.length) (ho : off + k < output.length) :
    maskBody buffer mask (off : Int) (k : Int) output
      = some (output.set (off + k) (buffer[k] ^^^ keyAt mask k)) := by
  rw [maskBody, load_mask mask k hm, load_natCast buffer k, List.getElem?_eq_getElem hb]
  show store output ((off : Int) + (k : Int)) (buffer[k] ^^^ keyAt mask k) = _
  rw [← Nat.cast_add]
  exact store_natCast output (off + k) _ ho

theorem maskBody_none_mask (buffer mask : List Byte) (dataOffset : Int) (k : Nat)
    (hm : mask.length ≤ k % 4) (output : List Byte) :
    maskBody buffer mask dataOffset (k : Int) output = none := by
  rw [maskBody, load_mask_none mask k hm]
  cases load buffer (k : Int) <;> rfl

theorem maskBody_none_store (buffer mask : List Byte) (off k : Nat) (output : List Byte)
    (ho : output.length ≤ off + k) :
    maskBody buffer mask (off : Int) (k : Int) output = none := by
  have hs : ∀ v, store output ((off : Int) + (k : Int)) v = none := by
    intro v
    rw [← Nat.cast_add]
    exact store_natCast_none output (off + k) v ho
  rw [maskBody]
  cases load buffer (k : Int) with
  | none => rfl
  | some b =>
    cases load mask ((k : Int).tmod 4) with
    | none => rfl
    | some m => exact hs _

theorem maskLoop_step (buffer mask : List Byte) (len off : Nat) (fuel k : Nat)
    (hm : k % 4 < mask.length) (output : List Byte) (hk : k < 18446744073709551616)
    (hlen : k < len) (hb : k < buffer.length) (ho : off + k < output.length) :
    maskLoop buffer mask len (off : Int) (fuel + 1) (k : Int) output
      = maskLoop buffer mask len (off : Int) fuel ((k + 1 : Nat) : Int)
          (output.set (off + k) (buffer[k] ^^^ keyAt mask k)) := by
  rw [maskLoop, toSizeT_natCast k hk, if_pos hlen, maskBody_eq buffer mask off k hm output hb ho]
  rfl

theorem maskLoop_fault (buffer mask : List Byte) (len off : Nat) (fuel k : Nat)
    (output : List Byte) (hk : k < 18446744073709551616) (hlen : k < len)
    (hbody : maskBody buffer mask (off : Int) (k : Int) output = none) :
    maskLoop buffer mask len (off : Int) (fuel + 1) (k : Int) output
      = .outOfBounds ⟨buffer, mask, output⟩ := by
  rw [maskLoop, toSizeT_natCast k hk, if_pos hlen, hbody]

/-- The loop of `Mask` run for `n` iterations from the counter value `k`: the bytes of
`output` at `off + k .. off + k + n - 1` receive the masked source bytes `k .. k + n - 1`, the
others are kept. -/
theorem maskLoop_run (buffer mask : List Byte) (len off : Nat) :
    ∀ (n k fuel : Nat) (output : List Byte), k + n ≤ buffer.length →
      k + n ≤ 18446744073709551616 → k + n ≤ len → (0 < n → off + k + n ≤ output.length) →
      n ≤ fuel → (∀ j, j < k + n → j % 4 < mask.length) →
      ∃ out : List Byte, out.length = output.length ∧
        (∀ j, out[j]? = if off + k ≤ j ∧ j < off + k + n
          then buffer[j - off]?.map (fun b => b ^^^ keyAt mask (j - off)) else output[j]?) ∧
        maskLoop buffer mask len (off : Int) fuel (k : Int) output
          = maskLoop buffer mask len (off : Int) (fuel - n) ((k + n : Nat) : Int) out := by
  intro n
  induction n with
  | zero =>
    intro k fuel output _ _ _ _ _ _
    refine ⟨output, rfl, ?_, rfl⟩
    intro j
    rw [if_neg (by omega)]
  | succ n ih =>
    intro k fuel output h1 h2 h3 h4 h5 hm
    have h4 := h4 (by omega)
    obtain ⟨f, rfl⟩ : ∃ f, fuel = f + 1 := ⟨fuel - 1, by omega⟩
    have hkl : k < buffer.length := by omega
    have hb : buffer[k]? = some buffer[k] := List.getElem?_eq_getElem hkl
    obtain ⟨out, ho1, ho2, ho3⟩ := ih (k + 1) f (output.set (off + k) (buffer[k] ^^^ keyAt mask k))
      (by omega) (by omega) (by omega) (by intro _; rw [List.length_set]; omega) (by omega)
      (fun j hj => hm j (by omega))
    refine ⟨out, by rw [ho1, List.length_set], ?_, ?_⟩
    · intro j
      rw [ho2 j, List.getElem?_set]
      by_cases hj : off + k = j
      · subst hj
        have e : off + k - off = k := by omega
        rw [if_neg (by omega), if_pos rfl, if_pos (by omega), if_pos (by omega), e, hb]
        rfl
      · rw [if_neg hj]
        by_cases hj2 : off + (k + 1) ≤ j ∧ j < off + (k + 1) + n
        · rw [if_pos hj2, if_pos (by omega)]
        · rw [if_neg hj2, if_neg (by omega)]
    · rw [maskLoop_step buffer mask len off f k (hm k (by omega)) output (by omega) (by omega)
        hkl (by omega), ho3]
      have e1 : f + 1 - (n + 1) = f - n := by omega
      have e2 : k + 1 + n = k + (n + 1) := by omega
      rw [e1, e2]

/-- `Mask` on a source that fits in memory, with an offset that is an `int` value, when its
first `n` iterations find their key byte and their place in `output`: if they are all the
iterations the loop makes (`n` is the source length), `true` is returned; if iteration `n`
finds no key byte or no place to write, the first access outside a buffer is made there.
Exactly the window `offset .. offset + n - 1` of `output` is written. -/
theorem Mask_run_to (buffer mask output : List Byte) (offset n : Nat)
    (hfit : buffer.length ≤ PTRDIFF_MAX) (hoff : offset < 2147483648)
    (hn : n ≤ buffer.length)
    (hm : ∀ j, j < n → j % 4 < mask.length) (ho : 0 < n → offset + n ≤ output.length)
    (hend : n = buffer.length ∨ mask.length ≤ n % 4 ∨ output.length ≤ offset + n) :
    ∃ out : List Byte, out.length = output.length ∧
      (∀ j, out[j]? = if offset ≤ j ∧ j < offset + n
        then buffer[j - offset]?.map (fun b => b ^^^ keyAt mask (j - offset))
        else output[j]?) ∧
      Mask buffer mask output (offset : Int) = if n = buffer.length
        then .returned true ⟨buffer, mask, out⟩ else .outOfBounds ⟨buffer, mask, out⟩ := by
  have hlen := Length_eq buffer hfit
  unfold PTRDIFF_MAX at hfit
  obtain ⟨out, ho1, ho2, ho3⟩ := maskLoop_run buffer mask (Length buffer) offset n 0
    (buffer.length + 1) output (by omega) (by omega) (by omega) (by omega) (by omega)
    (fun j hj => hm j (by omega))
  refine ⟨out, ho1, ?_, ?_⟩
  · intro j
    rw [ho2 j]
    by_cases hj : offset ≤ j ∧ j < offset + n
    · rw [if_pos hj, if_pos (by omega)]
    · rw [if_neg hj, if_neg (by omega)]
  · have h0 : ((0 : Nat) : Int) = 0 := rfl
    rw [h0] at ho3
    rw [Mask, toInt_natCast offset hoff, ho3, Nat.zero_add]
    obtain ⟨f, hf⟩ : ∃ f, buffer.length + 1 - n = f + 1 := ⟨buffer.length - n, by omega⟩
    rw [hf]
    by_cases hL : n = buffer.length
    · rw [if_pos hL, maskLoop, if_neg]
      rw [hlen, toSizeT_natCast _ (by omega)]
      omega
    · rw [if_neg hL]
      apply maskLoop_fault buffer mask (Length buffer) offset f n out (by omega) (by omega)
      by_cases hmk : mask.length ≤ n % 4
      · exact maskBody_none_mask buffer mask _ n hmk out
      · exact maskBody_none_store buffer mask offset n out (by omega)

/-- What `Mask` does with a mask of at least 4 bytes, a source that fits in memory and an
offset that is an `int` value: it writes the masked source bytes into the window of `output`
as far as `output` reaches, and returns `true` if the whole window fits or the source is
empty; otherwise the next write is outside `output`. -/
theorem Mask_fit_eq (buffer mask output : List Byte) (offset : Nat) (hm : 4 ≤ mask.length)
    (hfit : buffer.length ≤ PTRDIFF_MAX) (hO : offset ≤ 2147483647) :
    ∃ out : List Byte, out.length = output.length ∧
      (∀ j, out[j]? = if offset ≤ j ∧ j < offset + buffer.length ∧ j < output.length
        then buffer[j - offset]?.map (fun b => b ^^^ keyAt mask (j - offset)) else output[j]?) ∧
      Mask buffer mask output (offset : Int)
        = if buffer.length = 0 ∨ offset + buffer.length ≤ output.length
          then .returned true ⟨buffer, mask, out⟩
          else .outOfBounds ⟨buffer, mask, out⟩ := by
  obtain ⟨n, hn1, hn2, hn3, hn4⟩ : ∃ n : Nat, n ≤ buffer.length ∧
      (n = 0 ∨ offset + n ≤ output.length) ∧
      (buffer.length = 0 ∨ offset + buffer.length ≤ output.length → n = buffer.length) ∧
      (¬ (buffer.length = 0 ∨ offset + buffer.length ≤ output.length) →
        output.length ≤ offset + n ∧ n < buffer.length) := by
    by_cases hfitO : buffer.length = 0 ∨ offset + buffer.length ≤ output.length
    · exact ⟨buffer.length, by omega⟩
    · exact ⟨output.length - offset, by omega⟩
  obtain ⟨out, ho1, ho2, ho3⟩ := Mask_run_to buffer mask output offset n
    hfit (by omega) hn1 (fun j _ => by omega) (by omega)
    (by
      by_cases hfitO : buffer.length = 0 ∨ offset + buffer.length ≤ output.length
      · exact Or.inl (hn3 hfitO)
      · have := hn4 hfitO
        omega)
  refine ⟨out, ho1, ?_, ?_⟩
  · intro j
    rw [ho2 j]
    by_cases hfitO : buffer.length = 0 ∨ offset + buffer.length ≤ output.length
    · have := hn3 hfitO
      by_cases hj : offset ≤ j ∧ j < offset + buffer.length ∧ j < output.length
      · rw [if_pos hj, if_pos (by omega)]
      · rw [if_neg hj, if_neg (by omega)]
    · have := hn4 hfitO
      by_cases hj : offset ≤ j ∧ j < offset + buffer.length ∧ j < output.length
      · rw [if_pos hj, if_pos (by omega)]
      · rw [if_neg hj, if_neg (by omega)]
  · rw [ho3]
    by_cases hfitO : buffer.length = 0 ∨ offset + buffer.length ≤ output.length
    · rw [if_pos hfitO, if_pos (hn3 hfitO)]
    · have := hn4 hfitO
      rw [if_neg hfitO, if_neg (by omega)]

/-- The same when the end of the source window is an `int` value as well. -/
theorem Mask_eq (buffer mask output : List Byte) (offset : Nat) (hm : 4 ≤ mask.length)
    (hO : offset + buffer.length ≤ 2147483647) :
    ∃ out : List Byte, out.length = output.length ∧
      (∀ j, out[j]? = if offset ≤ j ∧ j < offset + buffer.length ∧ j < output.length
        then buffer[j - offset]?.map (fun b => b ^^^ keyAt mask (j - offset)) else output[j]?) ∧
      Mask buffer mask output (offset : Int)
        = if buffer.length = 0 ∨ offset + buffer.length ≤ output.length
          then .returned true ⟨buffer, mask, out⟩
          else .outOfBounds ⟨buffer, mask, out⟩ :=
  Mask_fit_eq buffer mask output offset hm (by unfold PTRDIFF_MAX; omega) (by omega)

theorem unmaskLoop_no_failure (mask : List Byte) (len : Nat) :
    ∀ (fuel : Nat) (i : Int) (buf : List Byte),
      (unmaskLoop mask len fuel i buf).reportsFailure = false := by
  intro fuel
  induction fuel with
  | zero => intro i buf; rfl
  | succ f ih =>
    intro i buf
    rw [unmaskLoop]
    by_cases h : toSizeT i < len
    · rw [if_pos h]
      cases unmaskBody mask i buf with
      | none => rfl
      | some b1 => exact ih _ _
    · rw [if_neg h]
      rfl

theorem maskLoop_no_failure (buffer mask : List Byte) (len : Nat) (dataOffset : Int) :
    ∀ (fuel : Nat) (i : Int) (output : List Byte),
      (maskLoop buffer mask len dataOffset fuel i output).reportsFailure = false := by
  intro fuel
  induction fuel with
  | zero => intro i output; rfl
  | succ f ih =>
    intro i output
    rw [maskLoop]
    by_cases h : toSizeT i < len
    · rw [if_pos h]
      cases maskBody buffer mask dataOffset i output with
      | none => rfl
      | some b1 => exact ih _ _
    · rw [if_neg h]
      rfl

theorem mergeLoop_no_failure (array : List (List Byte)) (alen : Int) :
    ∀ (fuel : Nat) (i offset : Int) (buffer : List Byte),
      (mergeLoop array alen fuel i offset buffer).reportsFailure = false := by
  intro fuel
  induction fuel with
  | zero => intro i offset buffer; rfl
  | succ f ih =>
    intro i offset buffer
    rw [mergeLoop]
    by_cases h : i < alen
    · rw [if_pos h]
      cases mergeBody array i offset buffer with
      | none => rfl
      | some r => exact ih _ _ _
    · rw [if_neg h]
      rfl

theorem memcpy_eq (dst src : List Byte) (o : Nat) (h : o + src.length ≤ dst.length) :
    memcpy dst (o : Int) src src.length
      = some (dst.take o ++ (src ++ dst.drop (o + src.length))) := by
  rw [memcpy, if_pos, Int.toNat_ofNat, List.take_length]
  rw [Int.toNat_ofNat]
  omega

theorem memcpy_none (dst src : List Byte) (o : Nat) (h : dst.length < o + src.length) :
    memcpy dst (o : Int) src src.length = none := by
  rw [memcpy, if_neg]
  rw [Int.toNat_ofNat]
  omega

theorem getElem?_memcpy (dst src : List Byte) (o : Nat) (h : o + src.length ≤ dst.length)
    (j : Nat) :
    (dst.take o ++ (src ++ dst.drop (o + src.length)))[j]?
      = if o ≤ j ∧ j < o + src.length then src[j - o]? else dst[j]? := by
  have hl : (dst.take o).length = o := by rw [List.length_take]; omega
  by_cases h1 : j < o
  · rw [if_neg (by omega), List.getElem?_append_left (by omega), List.getElem?_take,
      if_pos h1]
  · rw [List.getElem?_append_right (by omega), hl]
    by_cases h2 : j < o + src.length
    · rw [if_pos (by omega), List.getElem?_append_left (by omega)]
    · rw [if_neg (by omega), List.getElem?_append_right (by omega), List.getElem?_drop]
      congr 1
      omega

theorem getAt_natCast (array : List (List Byte)) (k : Nat) : getAt array (k : Int) = array[k]? := by
  simp [getAt]

theorem getElem?_middle (pre post : List (List Byte)) (f : List Byte) :
    (pre ++ f :: post)[pre.length]? = some f := by
  rw [List.getElem?_append_right (Nat.le_refl _), Nat.sub_self, List.getElem?_cons_zero]

theorem sizes_of_lt (src : List Byte) (h : src.length ≤ 2147483647) :
    toInt ((Length src : Nat) : Int) = (src.length : Int) ∧
      toSizeT (toInt ((Length src : Nat) : Int)) = src.length := by
  have hl : Length src = src.length := Length_eq src (by unfold PTRDIFF_MAX; omega)
  rw [hl, toInt_natCast _ (by omega), toSizeT_natCast _ (by omega)]
  exact ⟨rfl, rfl⟩

theorem mergeBody_eq (array : List (List Byte)) (k o : Nat) (src buffer : List Byte)
    (hs : array[k]? = some src) (ho : o + src.length ≤ 2147483647)
    (hb : o + src.length ≤ buffer.length) :
    mergeBody array (k : Int) (o : Int) buffer
      = some (((o + src.length : Nat) : Int),
          buffer.take o ++ (src ++ buffer.drop (o + src.length))) := by
  obtain ⟨e1, e2⟩ := sizes_of_lt src (by omega)
  rw [mergeBody, getAt_natCast, hs]
  show (memcpy buffer (o : Int) src (toSizeT (toInt ((Length src : Nat) : Int)))).map
    (fun buffer1 => (toInt ((o : Int) + toInt ((Length src : Nat) : Int)), buffer1)) = _
  rw [e2, e1, memcpy_eq buffer src o hb, toInt_add_natCast o src.length (by omega)]
  rfl

theorem mergeBody_none (array : List (List Byte)) (k o : Nat) (src buffer : List Byte)
    (hs : array[k]? = some src) (ho : src.length ≤ 2147483647)
    (hb : buffer.length < o + src.length) :
    mergeBody array (k : Int) (o : Int) buffer = none := by
  obtain ⟨e1, e2⟩ := sizes_of_lt src ho
  rw [mergeBody, getAt_natCast, hs]
  show (memcpy buffer (o : Int) src (toSizeT (toInt ((Length src : Nat) : Int)))).map
    (fun buffer1 => (toInt ((o : Int) + toInt ((Length src : Nat) : Int)), buffer1)) = _
  rw [e2, memcpy_none buffer src o hb]
  rfl

theorem mergeLoop_step (array : List (List Byte)) (fuel k o : Nat) (src buffer : List Byte)
    (hk : k < array.length) (hlen : array.length ≤ 2147483647)
    (hs : array[k]? = some src) (ho : o + src.length ≤ 2147483647)
    (hb : o + src.length ≤ buffer.length) :
    mergeLoop array (array.length : Int) (fuel + 1) (toInt (k : Int)) (o : Int) buffer
      = mergeLoop array (array.length : Int) fuel (toInt ((k + 1 : Nat) : Int))
          ((o + src.length : Nat) : Int)
          (buffer.take o ++ (src ++ buffer.drop (o + src.length))) := by
  rw [toInt_natCast k (by omega), mergeLoop, if_pos (by omega),
    mergeBody_eq array k o src buffer hs ho hb]
  rfl

theorem mergeLoop_fault (array : List (List Byte)) (fuel k o : Nat) (src buffer : List Byte)
    (hk : k < array.length) (hlen : array.length ≤ 2147483647)
    (hs : array[k]? = some src) (ho : src.length ≤ 2147483647)
    (hb : buffer.length < o + src.length) :
    mergeLoop array (array.length : Int) (fuel + 1) (toInt (k : Int)) (o : Int) buffer
      = .outOfBounds ⟨buffer, array⟩ := by
  rw [toInt_natCast k (by omega), mergeLoop, if_pos (by omega),
    mergeBody_none array k o src buffer hs ho hb]

/-- The loop of `Merge` run over the fragments `mid` that follow the fragments `pre`, from
the write position `o`: the bytes of `buffer` at `o .. o + |mid| - 1` receive the
concatenation of `mid`, the others are kept. -/
theorem mergeLoop_run (array : List (List Byte)) (hlen : array.length ≤ 2147483647) :
    ∀ (mid pre post : List (List Byte)) (fuel o : Nat) (buffer : List Byte),
      array = pre ++ (mid ++ post) → o + mid.flatten.length ≤ 2147483647 →
      o + mid.flatten.length ≤ buffer.length → mid.length ≤ fuel →
      ∃ out : List Byte, out.length = buffer.length ∧
        (∀ j, out[j]? = if o ≤ j ∧ j < o + mid.flatten.length then mid.flatten[j - o]?
          else buffer[j]?) ∧
        mergeLoop array (array.length : Int) fuel (toInt (pre.length : Int)) (o : Int) buffer
          = mergeLoop array (array.length : Int) (fuel - mid.length)
              (toInt ((pre.length + mid.length : Nat) : Int))
              ((o + mid.flatten.length : Nat) : Int) out := by
  intro mid
  induction mid with
  | nil =>
    intro pre post fuel o buffer _ _ _ _
    refine ⟨buffer, rfl, ?_, rfl⟩
    intro j
    rw [if_neg]
    rw [List.flatten_nil, List.length_nil]
    omega
  | cons f mid ih =>
    intro pre post fuel o buffer harr h1 h2 h3
    rw [List.flatten_cons, List.length_append] at h1 h2
    rw [List.length_cons] at h3
    obtain ⟨g, rfl⟩ : ∃ g, fuel = g + 1 := ⟨fuel - 1, by omega⟩
    have hs : array[pre.length]? = some f := by
      rw [harr, List.cons_append]
      exact getElem?_middle pre (mid ++ post) f
    have hk : pre.length < array.length := by
      rw [harr, List.length_append, List.cons_append, List.length_cons]
      omega
    have harr2 : array = (pre ++ [f]) ++ (mid ++ post) := by
      rw [harr, List.append_assoc]
      rfl
    obtain ⟨out, ho1, ho2, ho3⟩ := ih (pre ++ [f]) post g (o + f.length)
      (buffer.take o ++ (f ++ buffer.drop (o + f.length))) harr2 (by omega)
      (by
        rw [List.length_append, List.length_append, List.length_take, List.length_drop]
        omega)
      (by omega)
    have hl1 : (buffer.take o ++ (f ++ buffer.drop (o + f.length))).length = buffer.length := by
      rw [List.length_append, List.length_append, List.length_take, List.length_drop]
      omega
    refine ⟨out, by rw [ho1, hl1], ?_, ?_⟩
    · intro j
      rw [ho2 j, getElem?_memcpy buffer f o (by omega) j, List.flatten_cons, List.length_append]
      by_cases c1 : o ≤ j ∧ j < o + f.length
      · rw [if_neg (by omega), if_pos c1, if_pos (by omega),
          List.getElem?_append_left (by omega)]
      · rw [if_neg c1]
        by_cases c2 : o + f.length ≤ j ∧ j < o + f.length + mid.flatten.length
        · rw [if_pos c2, if_pos (by omega), List.getElem?_append_right (by omega)]
          congr 1
          omega
        · rw [if_neg c2, if_neg (by omega)]
    · have e3 : (pre ++ [f]).length = pre.length + 1 := by
        rw [List.length_append, List.length_singleton]
      have e1 : g + 1 - (mid.length + 1) = g - mid.length := by omega
      have e2 : pre.length + (mid.length + 1) = pre.length + 1 + mid.length := by omega
      have e4 : o + (f.length + mid.flatten.length) = o + f.length + mid.flatten.length := by
        omega
      rw [e3] at ho3
      rw [mergeLoop_step array g pre.length o f buffer hk hlen hs (by omega) (by omega), ho3,
        List.length_cons, List.flatten_cons, List.length_append, e1, e2, e4]

theorem Merge_unfold (buffer : List Byte) (array : List (List Byte))
    (hlen : array.length ≤ 2147483647) :
    Merge buffer array
      = mergeLoop array (array.length : Int) (array.length + 1)
          (toInt ((([] : List (List Byte)).length : Nat) : Int)) ((0 : Nat) : Int) buffer := by
  rw [Merge, Nat.mod_eq_of_lt (by omega), toInt_natCast _ (by omega)]
  rfl

/-- What `Merge` does when the number of fragments and their total length are `int` values
and the total length fits the destination: it returns `true` and the destination starts with
the concatenation of the fragments, the bytes after it being kept. -/
theorem Merge_eq (buffer : List Byte) (array : List (List Byte))
    (hlen : array.length ≤ 2147483647) (htot : array.flatten.length ≤ 2147483647)
    (hcap : array.flatten.length ≤ buffer.length) :
    Merge buffer array
      = .returned true ⟨array.flatten ++ buffer.drop array.flatten.length, array⟩ := by
  obtain ⟨out, ho1, ho2, ho3⟩ := mergeLoop_run array hlen array [] [] (array.length + 1) 0 buffer
    (by rw [List.nil_append, List.append_nil]) (by omega) (by omega) (by omega)
  have hout : out = array.flatten ++ buffer.drop array.flatten.length := by
    apply List.ext_getElem?
    intro j
    rw [ho2 j]
    by_cases hj : j < array.flatten.length
    · rw [if_pos (by omega), List.getElem?_append_left hj, Nat.sub_zero]
    · rw [if_neg (by omega), List.getElem?_append_right (by omega), List.getElem?_drop]
      congr 1
      omega
  have e1 : array.length + 1 - array.length = 0 + 1 := by omega
  rw [Merge_unfold buffer array hlen, ho3, e1, mergeLoop, if_neg, hout]
  rw [List.length_nil, Nat.zero_add, toInt_natCast _ (by omega)]
  omega

theorem flatten_split_length (pre post : List (List Byte)) (f : List Byte) :
    (pre ++ f :: post).flatten.length
      = pre.flatten.length + (f.length + post.flatten.length) := by
  rw [List.flatten_append, List.flatten_cons, List.length_append, List.length_append]

/-- A list of fragments longer than `cap` in total splits at the first fragment that crosses
position `cap`. -/
theorem exists_crossing : ∀ (array : List (List Byte)) (cap : Nat),
    cap < array.flatten.length →
    ∃ (pre : List (List Byte)) (f : List Byte) (post : List (List Byte)),
      array = pre ++ f :: post ∧ pre.flatten.length ≤ cap ∧
        cap < pre.flatten.length + f.length := by
  intro array
  induction array with
  | nil =>
    intro cap h
    rw [List.flatten_nil, List.length_nil] at h
    omega
  | cons g rest ih =>
    intro cap h
    rw [List.flatten_cons, List.length_append] at h
    by_cases hg : cap < g.length
    · refine ⟨[], g, rest, rfl, ?_, ?_⟩
      · rw [List.flatten_nil, List.length_nil]
        omega
      · rw [List.flatten_nil, List.length_nil]
        omega
    · obtain ⟨pre, f, post, h1, h2, h3⟩ := ih (cap - g.length) (by omega)
      refine ⟨g :: pre, f, post, ?_, ?_, ?_⟩
      · rw [h1]
        rfl
      · rw [List.flatten_cons, List.length_append]
        omega
      · rw [List.flatten_cons, List.length_append]
        omega

/-- What `Merge` does when the fragment `f` that follows the fragments `pre` is the first to
cross the end of the destination: the fragments of `pre` are copied, and the `memcpy` of `f`
is out of bounds. -/
theorem Merge_overrun_at (buffer : List Byte) (pre post : List (List Byte)) (f : List Byte)
    (hlen : (pre ++ f :: post).length ≤ 2147483647)
    (htot : pre.flatten.length + f.length ≤ 2147483647)
    (hpre : pre.flatten.length ≤ buffer.length)
    (hf : buffer.length < pre.flatten.length + f.length) :
    Merge buffer (pre ++ f :: post)
      = .outOfBounds ⟨pre.flatten ++ buffer.drop pre.flatten.length, pre ++ f :: post⟩ := by
  obtain ⟨out, ho1, ho2, ho3⟩ := mergeLoop_run (pre ++ f :: post) hlen pre [] (f :: post)
    ((pre ++ f :: post).length + 1) 0 buffer (by rw [List.nil_append]) (by omega) (by omega)
    (by rw [List.length_append]; omega)
  have hout : out = pre.flatten ++ buffer.drop pre.flatten.length := by
    apply List.ext_getElem?
    intro j
    rw [ho2 j]
    by_cases hj : j < pre.flatten.length
    · rw [if_pos (by omega), List.getElem?_append_left hj, Nat.sub_zero]
    · rw [if_neg (by omega), List.getElem?_append_right (by omega), List.getElem?_drop]
      congr 1
      omega
  obtain ⟨g, hg⟩ : ∃ g, (pre ++ f :: post).length + 1 - pre.length = g + 1 :=
    ⟨(pre ++ f :: post).length - pre.length, by rw [List.length_append]; omega⟩
  have hk : pre.length < (pre ++ f :: post).length := by
    rw [List.length_append, List.length_cons]
    omega
  rw [Merge_unfold buffer _ hlen, ho3, hg, List.length_nil, Nat.zero_add, Nat.zero_add,
    mergeLoop_fault (pre ++ f :: post) g pre.length pre.flatten.length f out hk hlen
      (getElem?_middle pre post f) (by omega) (by rw [ho1]; omega), hout]

theorem Mask_congr_offset (buffer mask output : List Byte) (x y : Int) (h : toInt x = toInt y) :
    Mask buffer mask output x = Mask buffer mask output y := by
  rw [Mask, Mask, h]

/-- `Merge` of a single fragment of `2^31` bytes: its length, stored in an `int`, is `-2^31`,
the count `memcpy` receives is `2^64 - 2^31`, and the copy is out of bounds. -/
theorem Merge_single_wrap (target frag : List Byte) (hlen : frag.length = 2147483648) :
    Merge target [frag] = .outOfBounds ⟨target, [frag]⟩ := by
  have hL : Length frag = 2147483648 := by
    rw [Length, hlen]
  have hg : getAt [frag] 0 = some frag := rfl
  have hn : toSizeT (toInt ((2147483648 : Nat) : Int)) = 18446744071562067968 := by decide
  have hc : memcpy target 0 frag 18446744071562067968 = none := by
    rw [memcpy, if_neg]
    rw [hlen]
    omega
  have hb : mergeBody [frag] 0 0 target = none := by
    rw [mergeBody, hg]
    show (memcpy target 0 frag (toSizeT (toInt ((Length frag : Nat) : Int)))).map _ = _
    rw [hL, hn, hc]
    rfl
  rw [Merge, List.length_singleton, mergeLoop, if_pos (by decide), hb]

/-- `Mask` with an offset that `Int32Value()` turns into a negative `int` and a source that is
not empty: the first write, at the index `dataOffset + 0`, is outside the output. -/
theorem Mask_negative_offset (buffer mask output : List Byte) (offset : Int)
    (hneg : toInt offset < 0) (hb : 0 < Length buffer) :
    Mask buffer mask output offset = .outOfBounds ⟨buffer, mask, output⟩ := by
  have hs : ∀ v, store output (toInt offset + 0) v = none := by
    intro v
    rw [store, if_neg]
    omega
  have hbody : maskBody buffer mask (toInt offset) 0 output = none := by
    rw [maskBody]
    cases load buffer 0 with
    | none => rfl
    | some b =>
      cases load mask ((0 : Int).tmod 4) with
      | none => rfl
      | some m => exact hs _
  have h0 : toSizeT 0 = 0 := rfl
  rw [Mask, maskLoop, h0, if_pos hb, hbody]

theorem toInt_succ_cases (i : Int) (h0 : 0 ≤ i) (h1 : i < 2147483648) :
    toInt (i + 1) = i + 1 ∨ toInt (i + 1) < 0 := by
  unfold toInt
  omega

theorem toInt_lt (z : Int) : toInt z < 2147483648 := by
  unfold toInt
  omega

theorem load_some (p : List Byte) (i : Int) (b : Byte) (h : load p i = some b) :
    0 ≤ i ∧ i.toNat < p.length := by
  unfold load at h
  by_cases c : 0 ≤ i
  · rw [if_pos c] at h
    refine ⟨c, ?_⟩
    by_contra hc
    rw [List.getElem?_eq_none (by omega)] at h
    cases h
  · rw [if_neg c] at h
    cases h

theorem unmaskBody_some (mask : List Byte) (i : Int) (buf buf1 : List Byte)
    (h : unmaskBody mask i buf = some buf1) :
    0 ≤ i ∧ i.toNat < buf.length ∧ buf1.length = buf.length := by
  unfold unmaskBody at h
  cases hm : load mask (i.tmod 4) with
  | none =>
    rw [hm] at h
    cases h
  | some m =>
    cases hb : load buf i with
    | none =>
      rw [hm, hb] at h
      cases h
    | some b =>
      rw [hm, hb] at h
      obtain ⟨c1, c2⟩ := load_some buf i b hb
      refine ⟨c1, c2, ?_⟩
      have h2 : store buf i (b ^^^ m) = some buf1 := h
      rw [store, if_pos ⟨c1, c2⟩] at h2
      injection h2 with h2
      rw [← h2, List.length_set]

theorem maskBody_some (buffer mask : List Byte) (dataOffset i : Int) (output output1 : List Byte)
    (h : maskBody buffer mask dataOffset i output = some output1) :
    0 ≤ i ∧ i.toNat < buffer.length := by
  unfold maskBody at h
  cases hb : load buffer i with
  | none =>
    rw [hb] at h
    cases h
  | some b => exact load_some buffer i b hb

theorem mergeBody_some (array : List (List Byte)) (i offset : Int) (buffer : List Byte)
    (r : Int × List Byte) (h : mergeBody array i offset buffer = some r) :
    0 ≤ i ∧ i.toNat < array.length := by
  unfold mergeBody at h
  cases hg : getAt array i with
  | none =>
    rw [hg] at h
    cases h
  | some src =>
    unfold getAt at hg
    by_cases c : 0 ≤ i
    · rw [if_pos c] at hg
      refine ⟨c, ?_⟩
      by_contra hc
      rw [List.getElem?_eq_none (by omega)] at hg
      cases hg
    · rw [if_neg c] at hg
      cases hg

/-- The loop of `Unmask` does not run out of fuel when the fuel exceeds the number of bytes
from the counter to the end of the buffer. -/
theorem unmaskLoop_ne_outOfFuel (mask : List Byte) (len : Nat) :
    ∀ (fuel : Nat) (i : Int) (buf : List Byte),
      (buf.length : Int) < (fuel : Int) + i → 0 < fuel →
      unmaskLoop mask len fuel i buf ≠ .outOfFuel := by
  intro fuel
  induction fuel with
  | zero => intro i buf _ h; omega
  | succ f ih =>
    intro i buf hm _
    rw [unmaskLoop]
    by_cases c : toSizeT i < len
    · rw [if_pos c]
      cases hb : unmaskBody mask i buf with
      | none => intro h; cases h
      | some buf1 =>
        obtain ⟨c1, c2, c3⟩ := unmaskBody_some mask i buf buf1 hb
        show unmaskLoop mask len f (i + 1) buf1 ≠ .outOfFuel
        apply ih
        · rw [c3]
          omega
        · omega
    · rw [if_neg c]
      intro h
      cases h

/-- `Unmask` never runs out of fuel: the embedding is total. -/
theorem Unmask_ne_outOfFuel (buffer mask : List Byte) : Unmask buffer mask ≠ .outOfFuel := by
  apply unmaskLoop_ne_outOfFuel mask _ _ _ _
  · omega
  · omega

/-- The loop of `Mask` does not run out of fuel when the fuel exceeds the number of bytes
from the counter to the end of the source. -/
theorem maskLoop_ne_outOfFuel (buffer mask : List Byte) (len : Nat) (dataOffset : Int) :
    ∀ (fuel : Nat) (i : Int) (output : List Byte),
      (buffer.length : Int) < (fuel : Int) + i → 0 < fuel →
      maskLoop buffer mask len dataOffset fuel i output ≠ .outOfFuel := by
  intro fuel
  induction fuel with
  | zero => intro i output _ h; omega
  | succ f ih =>
    intro i output hm _
    rw [maskLoop]
    by_cases c : toSizeT i < len
    · rw [if_pos c]
      cases hb : maskBody buffer mask dataOffset i output with
      | none => intro h; cases h
      | some output1 =>
        obtain ⟨c1, c2⟩ := maskBody_some buffer mask dataOffset i output output1 hb
        show maskLoop buffer mask len dataOffset f (i + 1) output1 ≠ .outOfFuel
        apply ih
        · omega
        · omega
    · rw [if_neg c]
      intro h
      cases h

/-- `Mask` never runs out of fuel: the embedding is total. -/
theorem Mask_ne_outOfFuel (buffer mask output : List Byte) (offset : Int) :
    Mask buffer mask output offset ≠ .outOfFuel := by
  apply maskLoop_ne_outOfFuel buffer mask _ _ _ _ _
  · omega
  · omega

/-- The loop of `Merge` does not run out of fuel when the fuel exceeds the number of
fragments from the counter to the end of the array. -/
theorem mergeLoop_ne_outOfFuel (array : List (List Byte)) (alen : Int) :
    ∀ (fuel : Nat) (i offset : Int) (buffer : List Byte), i < 2147483648 →
      (i < 0 ∨ (array.length : Int) < (fuel : Int) + i) → 0 < fuel →
      mergeLoop array alen fuel i offset buffer ≠ .outOfFuel := by
  intro fuel
  induction fuel with
  | zero => intro i offset buffer _ _ h; omega
  | succ f ih =>
    intro i offset buffer hi hm _
    rw [mergeLoop]
    by_cases c : i < alen
    · rw [if_pos c]
      cases hb : mergeBody array i offset buffer with
      | none => intro h; cases h
      | some r =>
        obtain ⟨c1, c2⟩ := mergeBody_some array i offset buffer r hb
        show mergeLoop array alen f (toInt (i + 1)) r.1 r.2 ≠ .outOfFuel
        have hc := toInt_succ_cases i c1 hi
        apply ih _ _ _ (toInt_lt _)
        · rcases hc with hc | hc
          · right
            rw [hc]
            omega
          · left
            exact hc
        · omega
    · rw [if_neg c]
      intro h
      cases h

/-- `Merge` never runs out of fuel: the embedding is total. -/
theorem Merge_ne_outOfFuel (buffer : List Byte) (array : List (List Byte)) :
    Merge buffer array ≠ .outOfFuel := by
  apply mergeLoop_ne_outOfFuel array _ _ _ _ _ (by decide)
  · right
    omega
  · omega

theorem rot_length (M : List Byte) (k : Nat) : (rot M k).length = 4 := by
  rw [rot, List.length_map, List.length_range]

theorem keyAt_congr (M : List Byte) (a b : Nat) (h : a % 4 = b % 4) : keyAt M a = keyAt M b := by
  rw [keyAt, keyAt, h]

theorem keyAt_rot (M : List Byte) (k i : Nat) : keyAt (rot M (k % 4)) i = keyAt M (k + i) := by
  have hi : i % 4 < 4 := Nat.mod_lt _ (by decide)
  have e : (i % 4 + k % 4) % 4 = (k + i) % 4 := by omega
  rw [keyAt, rot, List.getD_eq_getElem?_getD, List.getElem?_map,
    List.getElem?_range hi, Option.map_some', Option.getD_some, e]
  rfl

theorem prefix_succ (array : List (List Byte)) (k : Nat) (src : List Byte)
    (h : array[k]? = some src) :
    (array.take (k + 1)).flatten.length = (array.take k).flatten.length + src.length := by
  rw [List.take_succ, h, List.flatten_append, List.length_append]
  show _ + (src ++ ([] : List (List Byte)).flatten).length = _
  rw [List.flatten_nil, List.append_nil]

theorem prefix_le_total (array : List (List Byte)) (k : Nat) :
    (array.take k).flatten.length ≤ array.flatten.length := by
  have h : ((array.take k) ++ (array.drop k)).flatten.length = array.flatten.length := by
    rw [List.take_append_drop]
  rw [List.flatten_append, List.length_append] at h
  omega

theorem prefix_mono (array : List (List Byte)) (k : Nat) :
    (array.take k).flatten.length ≤ (array.take (k + 1)).flatten.length := by
  rw [List.take_succ, List.flatten_append, List.length_append]
  omega

theorem mergeBody_some_offset (array : List (List Byte)) (k : Nat) (s : Int)
    (buffer : List Byte) (r : Int × List Byte)
    (h : mergeBody array (k : Int) s buffer = some r) :
    ∃ src, array[k]? = some src ∧ r.1 = toInt (s + toInt ((Length src : Nat) : Int)) := by
  rw [mergeBody, getAt_natCast] at h
  cases hs : array[k]? with
  | none =>
    rw [hs] at h
    cases h
  | some src =>
    rw [hs] at h
    refine ⟨src, rfl, ?_⟩
    have h2 : (memcpy buffer s src (toSizeT (toInt ((Length src : Nat) : Int)))).map
        (fun buffer1 => (toInt (s + toInt ((Length src : Nat) : Int)), buffer1)) = some r := h
    cases hc : memcpy buffer s src (toSizeT (toInt ((Length src : Nat) : Int))) with
    | none =>
      rw [hc] at h2
      cases h2
    | some b1 =>
      rw [hc] at h2
      injection h2 with h2
      rw [← h2]

/-- The running offset of `Merge`: from an iteration `k` that starts with the offset equal to
the total length of the fragments before `k`, every later iteration starts with the offset
equal to the total length of the fragments before it. -/
theorem mergeOffsets_spec (array : List (List Byte)) (alen : Int) (halen : alen ≤ 2147483647)
    (hT : array.flatten.length ≤ 2147483647) :
    ∀ (fuel k : Nat) (buffer : List Byte), k ≤ 2147483647 →
      ∀ t o,
        (mergeOffsets array alen fuel (toInt (k : Int))
          (((array.take k).flatten.length : Nat) : Int) buffer)[t]? = some o →
        o = (((array.take (k + t)).flatten.length : Nat) : Int) := by
  intro fuel
  induction fuel with
  | zero =>
    intro k buffer _ t o h
    cases h
  | succ f ih =>
    intro k buffer hk t o h
    rw [toInt_natCast k (by omega), mergeOffsets] at h
    by_cases c : (k : Int) < alen
    · rw [if_pos c] at h
      cases hb : mergeBody array (k : Int) (((array.take k).flatten.length : Nat) : Int)
          buffer with
      | none =>
        rw [hb] at h
        have h1 : [(((array.take k).flatten.length : Nat) : Int)][t]? = some o := h
        cases t with
        | zero =>
          rw [List.getElem?_cons_zero] at h1
          injection h1 with h1
          rw [← h1]
          rfl
        | succ t =>
          rw [List.getElem?_cons_succ] at h1
          cases h1
      | some r =>
        rw [hb] at h
        have h1 : ((((array.take k).flatten.length : Nat) : Int)
            :: mergeOffsets array alen f (toInt ((k + 1 : Nat) : Int)) r.1 r.2)[t]?
              = some o := h
        cases t with
        | zero =>
          rw [List.getElem?_cons_zero] at h1
          injection h1 with h1
          rw [← h1]
          rfl
        | succ t =>
          rw [List.getElem?_cons_succ] at h1
          obtain ⟨src, hs, ho⟩ := mergeBody_some_offset array k _ buffer r hb
          have hp := prefix_succ array k src hs
          have hle := prefix_le_total array (k + 1)
          obtain ⟨e1, _⟩ := sizes_of_lt src (by omega)
          rw [e1, toInt_add_natCast _ _ (by omega), ← hp] at ho
          rw [ho] at h1
          have e : k + (t + 1) = k + 1 + t := by omega
          rw [e]
          exact ih (k + 1) r.2 (by omega) t o h1
    · rw [if_neg c] at h
      cases h

/-- The number of iterations of the loop of `Merge` when it returns: the positive part of
`arrayLength - k` from the counter value `k` on. -/
theorem mergeOffsets_length (array : List (List Byte)) (alen : Int)
    (halen : alen ≤ 2147483647) :
    ∀ (fuel k : Nat) (s : Int) (buffer : List Byte), k ≤ 2147483647 →
      ∀ mem, mergeLoop array alen fuel (toInt (k : Int)) s buffer = .returned true mem →
        (mergeOffsets array alen fuel (toInt (k : Int)) s buffer).length
          = (alen - (k : Int)).toNat := by
  intro fuel
  induction fuel with
  | zero =>
    intro k s buffer _ mem h
    cases h
  | succ f ih =>
    intro k s buffer hk mem h
    rw [toInt_natCast k (by omega), mergeLoop] at h
    rw [toInt_natCast k (by omega), mergeOffsets]
    by_cases c : (k : Int) < alen
    · rw [if_pos c] at h
      rw [if_pos c]
      cases hb : mergeBody array (k : Int) s buffer with
      | none =>
        rw [hb] at h
        cases h
      | some r =>
        rw [hb] at h
        have h2 : mergeLoop array alen f (toInt ((k + 1 : Nat) : Int)) r.1 r.2
            = .returned true mem := h
        have h3 := ih (k + 1) r.1 r.2 (by omega) mem h2
        show (s :: mergeOffsets array alen f (toInt ((k + 1 : Nat) : Int)) r.1 r.2).length = _
        rw [List.length_cons, h3]
        omega
    · rw [if_neg c]
      show 0 = _
      omega

theorem flatten_getElem?_at (array : List (List Byte)) (k j : Nat) (f : List Byte)
    (h : array[k]? = some f) (hj : j < f.length) :
    array.flatten[(array.take k).flatten.length + j]? = f[j]? := by
  have hk : k < array.length := by
    by_contra hc
    rw [List.getElem?_eq_none (by omega)] at h
    cases h
  have hf : array[k] = f := by
    rw [List.getElem?_eq_getElem hk] at h
    injection h
  have hsplit : array = array.take k ++ f :: array.drop (k + 1) := by
    rw [← hf, ← List.drop_eq_getElem_cons hk, List.take_append_drop]
  have e : array.flatten
      = (array.take k).flatten ++ (f ++ (array.drop (k + 1)).flatten) := by
    conv => lhs; rw [hsplit]
    rw [List.flatten_append, List.flatten_cons]
  rw [e, List.getElem?_append_right (by omega), Nat.add_sub_cancel_left,
    List.getElem?_append_left hj]

/-- `Unmask` on a buffer of at most `2^31 - 1` bytes with a mask of at least 4 bytes: `true`
is returned and every byte is XOR-ed with its key byte. -/
theorem Unmask_small (f M : List Byte) (hm : 4 ≤ M.length) (hf : f.length ≤ 2147483647) :
    ∃ g : List Byte, Unmask f M = .returned true ⟨g, M⟩ ∧ g.length = f.length ∧
      ∀ j, g[j]? = f[j]?.map (fun b => b ^^^ keyAt M j) := by
  exact Unmask_eq f M hm (by unfold PTRDIFF_MAX; omega)

/-- Unmasking every fragment of a list separately, when every fragment but the last has a
length divisible by 4: the results exist, and their concatenation is the concatenation of
the fragments with every byte XOR-ed with the key byte of its position in the whole. -/
theorem exists_unmasked (M : List Byte) (hm : 4 ≤ M.length) :
    ∀ F : List (List Byte), F.flatten.length ≤ 2147483647 →
      (∀ f ∈ F.dropLast, f.length % 4 = 0) →
      ∃ G : List (List Byte),
        List.Forall₂ (fun f g => Unmask f M = .returned true ⟨g, M⟩) F G ∧
        G.length = F.length ∧ G.flatten.length = F.flatten.length ∧
        ∀ j, G.flatten[j]? = F.flatten[j]?.map (fun b => b ^^^ keyAt M j) := by
  intro F
  induction F with
  | nil =>
    intro _ _
    exact ⟨[], List.Forall₂.nil, rfl, rfl, fun j => rfl⟩
  | cons f rest ih =>
    intro hT hA
    rw [List.flatten_cons, List.length_append] at hT
    have hArest : ∀ x ∈ rest.dropLast, x.length % 4 = 0 := by
      intro x hx
      by_cases hr : rest = []
      · rw [hr] at hx
        cases hx
      · apply hA
        rw [List.dropLast_cons_of_ne_nil hr]
        exact List.mem_cons_of_mem _ hx
    have hf4 : rest ≠ [] → f.length % 4 = 0 := by
      intro hr
      apply hA
      rw [List.dropLast_cons_of_ne_nil hr]
      exact List.mem_cons_self _ _
    obtain ⟨g, g1, g2, g3⟩ := Unmask_small f M hm (by omega)
    obtain ⟨G, G1, G2, G3, G4⟩ := ih (by omega) hArest
    refine ⟨g :: G, List.Forall₂.cons g1 G1, ?_, ?_, ?_⟩
    · rw [List.length_cons, List.length_cons, G2]
    · rw [List.flatten_cons, List.flatten_cons, List.length_append, List.length_append, g2, G3]
    · intro j
      rw [List.flatten_cons, List.flatten_cons]
      by_cases c : j < f.length
      · rw [List.getElem?_append_left (by omega), List.getElem?_append_left c, g3 j]
      · rw [List.getElem?_append_right (by omega), List.getElem?_append_right (by omega), g2,
          G4 (j - f.length)]
        by_cases hr : rest = []
        · rw [hr]
          rfl
        · rw [keyAt_congr M (j - f.length) j (by have := hf4 hr; omega)]

theorem forall₂_replicate {α β : Type} (R : α → β → Prop) (a : α) (b : β) (h : R a b) :
    ∀ n : Nat, List.Forall₂ R (List.replicate n a) (List.replicate n b) := by
  intro n
  induction n with
  | zero => exact List.Forall₂.nil
  | succ n ih =>
    rw [List.replicate_succ, List.replicate_succ]
    exact List.Forall₂.cons h ih

/-- `Merge` of an array whose length, stored in an `int`, is not positive: the loop body is
never entered and the destination is returned as it was. -/
theorem Merge_no_iteration (dest : List Byte) (array : List (List Byte))
    (h : ¬ (0 : Int) < toInt ((array.length % 4294967296 : Nat) : Int)) :
    Merge dest array = .returned true ⟨dest, array⟩ := by
  rw [Merge, mergeLoop, if_neg h]

/-- C1: for every byte buffer (of any length a buffer can have) and every 4-byte mask,
`Unmask` returns `true`, the buffer keeps its length `L`, the mask is untouched, and for
every index `i < L` the resulting byte at `i` is the original `buffer[i]` XOR
`mask[i mod 4]`. -/
theorem Unmask_correct (buffer : Buffer) (mask : List Byte) (hM : mask.length = 4) :
    ∃ out : List Byte, Unmask buffer.val mask = .returned true ⟨out, mask⟩ ∧
      out.length = buffer.val.length ∧
      ∀ i (hi : i < buffer.val.length), out[i]? = some (buffer.val[i] ^^^ mask[i % 4]) := by
  obtain ⟨out, h1, h2, h3⟩ := Unmask_eq buffer.val mask (by omega) buffer.property
  refine ⟨out, h1, h2, ?_⟩
  intro i hi
  rw [h3 i, List.getElem?_eq_getElem hi, keyAt_eq mask i (by omega)]
  rfl

/-- C1, witness: the scenario `B = [01,02,03,04,05]`, `M = [FF,00,FF,00]` gives
`[FE,02,FC,04,FA]`. -/
theorem Unmask_correct_witness :
    ([0xFF, 0x00, 0xFF, 0x00] : List Byte).length = 4 ∧
    (∃ out : List Byte,
      Unmask [0x01, 0x02, 0x03, 0x04, 0x05] [0xFF, 0x00, 0xFF, 0x00]
        = .returned true ⟨out, [0xFF, 0x00, 0xFF, 0x00]⟩ ∧
      out.length = 5 ∧ out[4]? = some 0xFA) ∧
    Unmask [0x01, 0x02, 0x03, 0x04, 0x05] [0xFF, 0x00, 0xFF, 0x00]
      = .returned true ⟨[0xFE, 0x02, 0xFC, 0x04, 0xFA], [0xFF, 0x00, 0xFF, 0x00]⟩ :=
  ⟨rfl,
    (Unmask_correct ⟨[0x01, 0x02, 0x03, 0x04, 0x05], by decide⟩ [0xFF, 0x00, 0xFF, 0x00]
      rfl).imp (fun _ h => ⟨h.1, h.2.1, h.2.2 4 (by decide)⟩),
    by decide⟩

/-- C2 (amended): for every source of length `L`, every 4-byte mask, every non-negative
offset with `offset + L ≤ 2^31 - 1` and every destination with
`destination.length ≥ offset + L`, `Mask` returns `true`, source and mask are untouched, and
for every `i < L` the byte `destination[offset + i]` is `source[i]` XOR `mask[i mod 4]`: the
key index is `i mod 4` whatever the offset is. -/
theorem Mask_correct (source mask destination : List Byte) (offset : Nat)
    (hM : mask.length = 4) (hR : offset + source.length ≤ 2147483647)
    (hD : offset + source.length ≤ destination.length) :
    ∃ out : List Byte,
      Mask source mask destination (offset : Int) = .returned true ⟨source, mask, out⟩ ∧
      ∀ i (hi : i < source.length), out[offset + i]? = some (source[i] ^^^ mask[i % 4]) := by
  obtain ⟨out, _, h2, h3⟩ := Mask_eq source mask destination offset (by omega) hR
  rw [if_pos (Or.inr hD)] at h3
  refine ⟨out, h3, ?_⟩
  intro i hi
  have e : offset + i - offset = i := by omega
  rw [h2 (offset + i), if_pos (by omega), e, List.getElem?_eq_getElem hi,
    keyAt_eq mask i (by omega)]
  rfl

/-- C2, witness: with offset 1 the first source byte `01` meets the key byte `mask[0] = 10`,
not `mask[1] = 20`. -/
theorem Mask_correct_witness :
    ([0x10, 0x20, 0x30, 0x40] : List Byte).length = 4 ∧
    1 + ([0x01, 0x02, 0x03] : List Byte).length ≤ 2147483647 ∧
    1 + ([0x01, 0x02, 0x03] : List Byte).length ≤ ([9, 9, 9, 9, 9] : List Byte).length ∧
    (∃ out : List Byte,
      Mask [0x01, 0x02, 0x03] [0x10, 0x20, 0x30, 0x40] [9, 9, 9, 9, 9] ((1 : Nat) : Int)
        = .returned true ⟨[0x01, 0x02, 0x03], [0x10, 0x20, 0x30, 0x40], out⟩ ∧
      out[1 + 0]? = some 0x11) ∧
    Mask [0x01, 0x02, 0x03] [0x10, 0x20, 0x30, 0x40] [9, 9, 9, 9, 9] 1
      = .returned true ⟨[0x01, 0x02, 0x03], [0x10, 0x20, 0x30, 0x40],
          [9, 0x11, 0x22, 0x33, 9]⟩ :=
  ⟨rfl, by decide, by decide,
    (Mask_correct [0x01, 0x02, 0x03] [0x10, 0x20, 0x30, 0x40] [9, 9, 9, 9, 9] 1 rfl
      (by decide) (by decide)).imp (fun _ h => ⟨h.1, h.2 0 (by decide)⟩),
    by decide⟩

/-- C2 as stated, for every non-negative offset, fails for the offset `2^32 + 1`, the source
`[01]`, the mask `[10,20,30,40]` and a destination of `2^32 + 2` zero bytes, which is long
enough: `Int32Value()` turns the offset into `1`, the call returns `true` having written
`01 XOR 10 = 11` at index `1`, and `destination[offset + 0]` is still `00`. -/
theorem Mask_correct_counterexample :
    4294967297 + ([0x01] : List Byte).length
      ≤ (List.replicate 4294967298 (0 : Byte)).length ∧
    ∃ out : List Byte,
      Mask [0x01] [0x10, 0x20, 0x30, 0x40] (List.replicate 4294967298 0) 4294967297
        = .returned true ⟨[0x01], [0x10, 0x20, 0x30, 0x40], out⟩ ∧
      out[4294967297 + 0]? = some 0 ∧
      out[1]? = some 0x11 ∧
      ([0x01] : List Byte)[0]? = some 0x01 ∧
      ([0x10, 0x20, 0x30, 0x40] : List Byte)[0 % 4]? = some 0x10 ∧
      (0x01 : Byte) ^^^ 0x10 ≠ 0 := by
  have hlen : (List.replicate 4294967298 (0 : Byte)).length = 4294967298 :=
    List.length_replicate _ _
  refine ⟨by rw [hlen]; decide, ?_⟩
  obtain ⟨out, _, h2, h3⟩ := Mask_run_to [0x01] [0x10, 0x20, 0x30, 0x40]
    (List.replicate 4294967298 0) 1 1 (by decide) (by decide) (by decide)
    (fun j hj => by
      have : j = 0 := by omega
      subst this
      decide)
    (fun _ => by rw [hlen]; decide) (Or.inl rfl)
  rw [if_pos (by decide)] at h3
  refine ⟨out, ?_, ?_, ?_, by decide, by decide, by decide⟩
  · rw [Mask_congr_offset _ _ _ 4294967297 ((1 : Nat) : Int) (by decide)]
    exact h3
  · rw [h2 (4294967297 + 0), if_neg (by decide), List.getElem?_replicate, if_pos (by decide)]
  · rw [h2 1, if_pos (by decide)]
    decide

/-- C3 (amended): for every ordered list of at most `2^31 - 1` fragments whose total length
is at most `2^31 - 1`, and every destination whose length equals that total length, `Merge`
returns `true` and the destination is byte-for-byte the concatenation of the fragments in
list order; the fragments are untouched. -/
theorem Merge_correct (destination : List Byte) (fragments : List (List Byte))
    (hN : fragments.length ≤ 2147483647) (hT : fragments.flatten.length ≤ 2147483647)
    (hD : destination.length = fragments.flatten.length) :
    Merge destination fragments = .returned true ⟨fragments.flatten, fragments⟩ := by
  rw [Merge_eq destination fragments hN hT (by omega), List.drop_of_length_le (by omega),
    List.append_nil]

/-- C3, witness: the fragments `[[61,62],[63],[64,65]]` give `[61,62,63,64,65]`. -/
theorem Merge_correct_witness :
    ([[0x61, 0x62], [0x63], [0x64, 0x65]] : List (List Byte)).length ≤ 2147483647 ∧
    ([[0x61, 0x62], [0x63], [0x64, 0x65]] : List (List Byte)).flatten.length ≤ 2147483647 ∧
    ([0, 0, 0, 0, 0] : List Byte).length
      = ([[0x61, 0x62], [0x63], [0x64, 0x65]] : List (List Byte)).flatten.length ∧
    Merge [0, 0, 0, 0, 0] [[0x61, 0x62], [0x63], [0x64, 0x65]]
      = .returned true ⟨[0x61, 0x62, 0x63, 0x64, 0x65], [[0x61, 0x62], [0x63], [0x64, 0x65]]⟩ :=
  ⟨by decide, by decide, by decide,
    Merge_correct [0, 0, 0, 0, 0] [[0x61, 0x62], [0x63], [0x64, 0x65]] (by decide) (by decide)
      (by decide)⟩

/-- C3 as stated, for every fragment list, fails for `2^31` fragments of one byte `61` and a
destination of `2^31` zero bytes: `arrayLength`, an `int`, is `-2^31`, the loop body never
runs, and `true` is returned with the destination still all zero. -/
theorem Merge_correct_counterexample :
    (List.replicate 2147483648 (0 : Byte)).length
      = (List.replicate 2147483648 ([0x61] : List Byte)).flatten.length ∧
    Merge (List.replicate 2147483648 0) (List.replicate 2147483648 [0x61])
      = .returned true ⟨List.replicate 2147483648 0, List.replicate 2147483648 [0x61]⟩ ∧
    (List.replicate 2147483648 (0 : Byte))[0]? = some 0 ∧
    (List.replicate 2147483648 ([0x61] : List Byte)).flatten[0]? = some 0x61 := by
  refine ⟨?_, ?_, ?_, ?_⟩
  · rw [List.flatten_replicate_singleton, List.length_replicate, List.length_replicate]
  · rw [Merge, List.length_replicate, mergeLoop, if_neg (by decide)]
  · rw [List.getElem?_replicate, if_pos (by decide)]
  · rw [List.flatten_replicate_singleton, List.getElem?_replicate, if_pos (by decide)]

/-- C4: `Unmask` is an involution. For every byte buffer `B` (of any length a buffer can
have) and every 4-byte mask `M`, `Unmask(B, M)` returns `true` with some contents `B1`, and
`Unmask(B1, M)` returns `true` with exactly the contents `B`. -/
theorem Unmask_involution (B : Buffer) (M : List Byte) (hM : M.length = 4) :
    ∃ B1 : List Byte, Unmask B.val M = .returned true ⟨B1, M⟩ ∧
      Unmask B1 M = .returned true ⟨B.val, M⟩ := by
  obtain ⟨B1, h1, h2, h3⟩ := Unmask_eq B.val M (by omega) B.property
  obtain ⟨B2, g1, g2, g3⟩ := Unmask_eq B1 M (by omega) (by rw [h2]; exact B.property)
  refine ⟨B1, h1, ?_⟩
  have e : B2 = B.val := by
    apply List.ext_getElem?
    intro j
    rw [g3 j, h3 j]
    cases B.val[j]? with
    | none => rfl
    | some b => simp only [Option.map_some', xor_xor_cancel]
  rw [g1, e]

/-- C4, witness: a buffer of 5 bytes, a length not divisible by 4. -/
theorem Unmask_involution_witness :
    ([0xFF, 0x00, 0xFF, 0x00] : List Byte).length = 4 ∧
    ∃ B1 : List Byte,
      Unmask [0x01, 0x02, 0x03, 0x04, 0x05] [0xFF, 0x00, 0xFF, 0x00]
        = .returned true ⟨B1, [0xFF, 0x00, 0xFF, 0x00]⟩ ∧
      Unmask B1 [0xFF, 0x00, 0xFF, 0x00]
        = .returned true ⟨[0x01, 0x02, 0x03, 0x04, 0x05], [0xFF, 0x00, 0xFF, 0x00]⟩ :=
  ⟨rfl, Unmask_involution ⟨[0x01, 0x02, 0x03, 0x04, 0x05], by decide⟩
    [0xFF, 0x00, 0xFF, 0x00] rfl⟩


/-- C5: for every byte sequence `B` (of any length a buffer can have), every 4-byte mask `M`
and every destination `D` of length `|B|`, `Mask(B, M, D, 0)` returns `true` leaving some
contents `D1` in the destination, and `Unmask(D1, M)` returns `true` leaving exactly the
bytes of `B`. -/
theorem Mask_Unmask_roundtrip (B : Buffer) (M D : List Byte) (hM : M.length = 4)
    (hD : D.length = B.val.length) :
    ∃ D1 : List Byte, Mask B.val M D 0 = .returned true ⟨B.val, M, D1⟩ ∧
      Unmask D1 M = .returned true ⟨B.val, M⟩ := by
  have hB := B.property
  obtain ⟨D1, h1, h2, h3⟩ := Mask_fit_eq B.val M D 0 (by omega) hB (by omega)
  rw [if_pos (Or.inr (by omega))] at h3
  obtain ⟨D2, g1, g2, g3⟩ := Unmask_eq D1 M (by omega) (by rw [h1, hD]; exact hB)
  refine ⟨D1, h3, ?_⟩
  have e : D2 = B.val := by
    apply List.ext_getElem?
    intro j
    by_cases hj : j < B.val.length
    · rw [g3 j, h2 j, if_pos (by omega), Nat.sub_zero]
      cases B.val[j]? with
      | none => rfl
      | some b => simp only [Option.map_some', xor_xor_cancel]
    · rw [List.getElem?_eq_none (by omega : D2.length ≤ j),
        List.getElem?_eq_none (by omega : B.val.length ≤ j)]
  rw [g1, e]

/-- C5, witness: 5 bytes masked into a destination of 5 bytes and unmasked again. -/
theorem Mask_Unmask_roundtrip_witness :
    ([0xFF, 0x00, 0xFF, 0x00] : List Byte).length = 4 ∧
    ([0, 0, 0, 0, 0] : List Byte).length = ([0x01, 0x02, 0x03, 0x04, 0x05] : List Byte).length ∧
    ∃ D1 : List Byte,
      Mask [0x01, 0x02, 0x03, 0x04, 0x05] [0xFF, 0x00, 0xFF, 0x00] [0, 0, 0, 0, 0] 0
        = .returned true ⟨[0x01, 0x02, 0x03, 0x04, 0x05], [0xFF, 0x00, 0xFF, 0x00], D1⟩ ∧
      Unmask D1 [0xFF, 0x00, 0xFF, 0x00]
        = .returned true ⟨[0x01, 0x02, 0x03, 0x04, 0x05], [0xFF, 0x00, 0xFF, 0x00]⟩ :=
  ⟨rfl, rfl,
    Mask_Unmask_roundtrip ⟨[0x01, 0x02, 0x03, 0x04, 0x05], by decide⟩ [0xFF, 0x00, 0xFF, 0x00]
      [0, 0, 0, 0, 0] rfl rfl⟩

/-- C6 (amended): `Mask` has no capacity check and never reports failure. For every source of
length `L`, every 4-byte mask, every non-negative offset with `offset + L ≤ 2^31 - 1` and
every destination with `destination.length < offset + L`: no failure is reported; in the
destination, `destination[offset + i]` has been set to `source[i]` XOR `mask[i mod 4]` for
every `i` with `offset + i < destination.length`, the bytes below `offset` and the length
are as they were; and if the source is empty the call returns `true` with the destination
unchanged. The destination is taken when the run first writes outside it: all later writes
of the source lie further outside. Nothing is stated about those writes. -/
theorem Mask_capacity_unchecked (source mask destination : List Byte) (offset : Nat)
    (hM : mask.length = 4) (hR : offset + source.length ≤ 2147483647)
    (hD : destination.length < offset + source.length) :
    (Mask source mask destination (offset : Int)).reportsFailure = false ∧
    (∃ mem : MaskMem, (Mask source mask destination (offset : Int)).memory? = some mem ∧
      mem.output.length = destination.length ∧
      (∀ i (hi : offset + i < destination.length),
        mem.output[offset + i]? = some (source[i] ^^^ mask[i % 4])) ∧
      (∀ j, j < offset → mem.output[j]? = destination[j]?)) ∧
    (source.length = 0 →
      Mask source mask destination (offset : Int)
        = .returned true ⟨source, mask, destination⟩) := by
  refine ⟨maskLoop_no_failure _ _ _ _ _ _ _, ?_⟩
  obtain ⟨out, h1, h2, h3⟩ := Mask_eq source mask destination offset (by omega) hR
  refine ⟨⟨⟨source, mask, out⟩, ?_, h1, ?_, ?_⟩, ?_⟩
  · rw [h3]
    by_cases hs : source.length = 0
    · rw [if_pos (Or.inl hs)]
      rfl
    · rw [if_neg (by omega)]
      rfl
  · intro i hi
    have e : offset + i - offset = i := by omega
    show out[offset + i]? = _
    rw [h2 (offset + i), if_pos (by omega), e, List.getElem?_eq_getElem (by omega),
      keyAt_eq mask i (by omega)]
    rfl
  · intro j hj
    show out[j]? = _
    rw [h2 j, if_neg (by omega)]
  · intro hs
    have e : out = destination := by
      apply List.ext_getElem?
      intro j
      rw [h2 j, if_neg (by omega)]
    rw [h3, if_pos (Or.inl hs), e]

/-- C6, witness: a source of 2 bytes and a destination of 1 byte. No failure is reported and
`destination[0]` has been overwritten with `01 XOR FF`. -/
theorem Mask_capacity_unchecked_witness :
    ([0xFF, 0x00, 0xFF, 0x00] : List Byte).length = 4 ∧
    0 + ([0x01, 0x02] : List Byte).length ≤ 2147483647 ∧
    ([9] : List Byte).length < 0 + ([0x01, 0x02] : List Byte).length ∧
    (Mask [0x01, 0x02] [0xFF, 0x00, 0xFF, 0x00] [9] ((0 : Nat) : Int)).reportsFailure = false ∧
    ∃ mem : MaskMem,
      (Mask [0x01, 0x02] [0xFF, 0x00, 0xFF, 0x00] [9] ((0 : Nat) : Int)).memory? = some mem ∧
      mem.output.length = 1 ∧ mem.output[0 + 0]? = some 0xFE :=
  ⟨rfl, by decide, by decide,
    (Mask_capacity_unchecked [0x01, 0x02] [0xFF, 0x00, 0xFF, 0x00] [9] 0 rfl (by decide)
      (by decide)).1,
    (Mask_capacity_unchecked [0x01, 0x02] [0xFF, 0x00, 0xFF, 0x00] [9] 0 rfl (by decide)
      (by decide)).2.1.imp (fun _ h => ⟨h.1, h.2.1, h.2.2.1 0 (by decide)⟩)⟩

/-- C6 as stated fails: with an empty source, offset 1 and an empty destination, which is
too short, the call returns `true`; with a source of 2 bytes, offset 0 and a destination of
1 byte no failure is reported and the destination byte `09` has been overwritten with
`01 XOR FF`. -/
theorem Mask_capacity_unchecked_counterexample :
    ([] : List Byte).length < 1 + ([] : List Byte).length ∧
    Mask [] [0xFF, 0x00, 0xFF, 0x00] [] 1
      = .returned true ⟨[], [0xFF, 0x00, 0xFF, 0x00], []⟩ ∧
    ([9] : List Byte).length < 0 + ([0x01, 0x02] : List Byte).length ∧
    (Mask [0x01, 0x02] [0xFF, 0x00, 0xFF, 0x00] [9] 0).reportsFailure = false ∧
    (∃ mem : MaskMem,
      (Mask [0x01, 0x02] [0xFF, 0x00, 0xFF, 0x00] [9] 0).memory? = some mem ∧
      mem.output[0]? = some 0xFE) ∧
    ([9] : List Byte)[0]? = some 9 :=
  ⟨by decide, by decide, by decide, by decide,
    ⟨⟨[0x01, 0x02], [0xFF, 0x00, 0xFF, 0x00], [0xFE]⟩, by decide, by decide⟩, by decide⟩

/-- C7 (amended): `Merge` has no capacity check and never reports failure. For every list of
at most `2^31 - 1` fragments whose total length is at most `2^31 - 1` and exceeds
`destination.length`: no failure is reported, and the fragments `pre` before the first
fragment `f` that crosses the end of the destination have been copied to the start of the
destination in order. The destination is taken when the run first copies outside it, in the
`memcpy` of `f`: no later copy of the source writes below the end of `pre`. Nothing is
stated about the bytes from there on. -/
theorem Merge_capacity_unchecked (destination : List Byte) (fragments : List (List Byte))
    (hN : fragments.length ≤ 2147483647) (hT : fragments.flatten.length ≤ 2147483647)
    (hD : destination.length < fragments.flatten.length) :
    (Merge destination fragments).reportsFailure = false ∧
    ∃ (pre : List (List Byte)) (f : List Byte) (post : List (List Byte)),
      fragments = pre ++ f :: post ∧ pre.flatten.length ≤ destination.length ∧
      destination.length < pre.flatten.length + f.length ∧
      ∃ mem : MergeMem, (Merge destination fragments).memory? = some mem ∧
        mem.buffer.take pre.flatten.length = pre.flatten := by
  refine ⟨mergeLoop_no_failure _ _ _ _ _ _, ?_⟩
  obtain ⟨pre, f, post, h1, h2, h3⟩ := exists_crossing fragments destination.length hD
  refine ⟨pre, f, post, h1, h2, h3, ?_⟩
  subst h1
  have hs := flatten_split_length pre post f
  refine ⟨⟨pre.flatten ++ destination.drop pre.flatten.length, pre ++ f :: post⟩, ?_, ?_⟩
  · rw [Merge_overrun_at destination pre post f hN (by omega) h2 h3]
    rfl
  · exact List.take_left _ _

/-- C7, witness: fragments of 1 and 2 bytes and a destination of 2 bytes. -/
theorem Merge_capacity_unchecked_witness :
    ([[1], [2, 3]] : List (List Byte)).length ≤ 2147483647 ∧
    ([[1], [2, 3]] : List (List Byte)).flatten.length ≤ 2147483647 ∧
    ([0, 0] : List Byte).length < ([[1], [2, 3]] : List (List Byte)).flatten.length ∧
    (Merge [0, 0] [[1], [2, 3]]).reportsFailure = false ∧
    ∃ (pre : List (List Byte)) (f : List Byte) (post : List (List Byte)),
      ([[1], [2, 3]] : List (List Byte)) = pre ++ f :: post ∧
      pre.flatten.length ≤ ([0, 0] : List Byte).length ∧
      ([0, 0] : List Byte).length < pre.flatten.length + f.length ∧
      ∃ mem : MergeMem, (Merge [0, 0] [[1], [2, 3]]).memory? = some mem ∧
        mem.buffer.take pre.flatten.length = pre.flatten :=
  ⟨by decide, by decide, by decide,
    Merge_capacity_unchecked [0, 0] [[1], [2, 3]] (by decide) (by decide) (by decide)⟩

/-- C7 as stated fails: with the fragments `[[01],[02,03]]` and a destination of 2 bytes no
failure is reported, and the fragment that fits has been copied, `destination[0] = 01`
instead of `00`; with `2^31` fragments of one byte and an empty destination `arrayLength`,
an `int`, is `-2^31`, the loop body never runs and `true` is returned. -/
theorem Merge_capacity_unchecked_counterexample :
    ([0, 0] : List Byte).length < ([[1], [2, 3]] : List (List Byte)).flatten.length ∧
    (Merge [0, 0] [[1], [2, 3]]).reportsFailure = false ∧
    (∃ mem : MergeMem, (Merge [0, 0] [[1], [2, 3]]).memory? = some mem ∧
      mem.buffer[0]? = some 1) ∧
    ([0, 0] : List Byte)[0]? = some 0 ∧
    ([] : List Byte).length < (List.replicate 2147483648 ([0x61] : List Byte)).flatten.length ∧
    Merge [] (List.replicate 2147483648 [0x61])
      = .returned true ⟨[], List.replicate 2147483648 [0x61]⟩ := by
  refine ⟨by decide, by decide, ⟨⟨[1, 0], [[1], [2, 3]]⟩, by decide, by decide⟩, by decide,
    ?_, ?_⟩
  · rw [List.flatten_replicate_singleton, List.length_replicate]
    decide
  · rw [Merge, List.length_replicate, mergeLoop, if_neg (by decide)]

/-- C8 (amended): `Unmask` and `Mask` do not validate the mask length and never report
failure. For every buffer of length `L`, every mask of any length, every non-negative offset
with `offset + L ≤ 2^31 - 1` and every destination with `destination.length ≥ offset + L`:
no failure is reported; if the mask has at least 4 bytes (also more than 4), or at least `L`
bytes, the operation returns `true` and byte `i` is XOR-ed with `mask[i mod 4]` for every
`i < L`; otherwise the bytes at the indices `i < mask.length` have been XOR-ed with
`mask[i]`. In that last case the buffer is taken when the run first reads outside the mask:
the source writes no index twice. Nothing is stated about the bytes at the other indices. -/
theorem mask_length_unchecked (buffer mask destination : List Byte) (offset : Nat)
    (hR : offset + buffer.length ≤ 2147483647)
    (hD : offset + buffer.length ≤ destination.length) :
    (Unmask buffer mask).reportsFailure = false ∧
    (Mask buffer mask destination (offset : Int)).reportsFailure = false ∧
    (∃ out : List Byte,
      (Unmask buffer mask).memory? = some ⟨out, mask⟩ ∧
      out.length = buffer.length ∧
      (∀ i b m, buffer[i]? = some b → mask[i % 4]? = some m →
        (4 ≤ mask.length ∨ i < mask.length) → out[i]? = some (b ^^^ m)) ∧
      (4 ≤ mask.length ∨ buffer.length ≤ mask.length →
        Unmask buffer mask = .returned true ⟨out, mask⟩)) ∧
    (∃ out : List Byte,
      (Mask buffer mask destination (offset : Int)).memory? = some ⟨buffer, mask, out⟩ ∧
      out.length = destination.length ∧
      (∀ i b m, buffer[i]? = some b → mask[i % 4]? = some m →
        (4 ≤ mask.length ∨ i < mask.length) → out[offset + i]? = some (b ^^^ m)) ∧
      (4 ≤ mask.length ∨ buffer.length ≤ mask.length →
        Mask buffer mask destination (offset : Int)
          = .returned true ⟨buffer, mask, out⟩)) := by
  obtain ⟨n, hn1, hn2, hn3, hn4, hn5⟩ : ∃ n : Nat, n ≤ buffer.length ∧
      (∀ j, j < n → j % 4 < mask.length) ∧
      (n = buffer.length ∨ mask.length ≤ n % 4) ∧
      (n = buffer.length ↔ (4 ≤ mask.length ∨ buffer.length ≤ mask.length)) ∧
      (∀ i, i < buffer.length → (i < n ↔ (4 ≤ mask.length ∨ i < mask.length))) := by
    by_cases c1 : 4 ≤ mask.length ∨ buffer.length ≤ mask.length
    · exact ⟨buffer.length, Nat.le_refl _, fun j hj => by omega, Or.inl rfl, by omega,
        fun i hi => by omega⟩
    · exact ⟨mask.length, by omega, fun j hj => by omega, Or.inr (by omega), by omega,
        fun i hi => by omega⟩
  have key : ∀ i m, mask[i % 4]? = some m → keyAt mask i = m := by
    intro i m hm
    rw [keyAt, List.getD_eq_getElem?_getD, hm]
    rfl
  have hlt : ∀ (l : List Byte) (i : Nat) (b : Byte), l[i]? = some b → i < l.length := by
    intro l i b h
    by_contra hc
    rw [List.getElem?_eq_none (by omega)] at h
    cases h
  refine ⟨unmaskLoop_no_failure _ _ _ _ _, maskLoop_no_failure _ _ _ _ _ _ _, ?_, ?_⟩
  · obtain ⟨out, h1, h2, h3⟩ := Unmask_run_to buffer mask n (by unfold PTRDIFF_MAX; omega)
      hn1 hn2 hn3
    refine ⟨out, ?_, h1, ?_, ?_⟩
    · rw [h3]
      by_cases c1 : n = buffer.length
      · rw [if_pos c1]
        rfl
      · rw [if_neg c1]
        rfl
    · intro i b m hb hm hc
      have hi := hlt buffer i b hb
      rw [h2 i, if_pos ((hn5 i hi).2 hc), hb, key i m hm]
      rfl
    · intro c1
      rw [h3, if_pos (hn4.2 c1)]
  · obtain ⟨out, h1, h2, h3⟩ := Mask_run_to buffer mask destination offset n
      (by unfold PTRDIFF_MAX; omega) (by omega) hn1 hn2 (by omega) (by omega)
    refine ⟨out, ?_, h1, ?_, ?_⟩
    · rw [h3]
      by_cases c1 : n = buffer.length
      · rw [if_pos c1]
        rfl
      · rw [if_neg c1]
        rfl
    · intro i b m hb hm hc
      have hi := hlt buffer i b hb
      have hin := (hn5 i hi).2 hc
      have e : offset + i - offset = i := by omega
      rw [h2 (offset + i), if_pos (by omega), e, hb, key i m hm]
      rfl
    · intro c1
      rw [h3, if_pos (hn4.2 c1)]

/-- C8, witness: a mask of 5 bytes with a buffer of 5 bytes. Both operations return `true`,
and byte 4 is XOR-ed with `mask[0]`, not with the fifth mask byte. -/
theorem mask_length_unchecked_witness :
    0 + ([0x01, 0x02, 0x03, 0x04, 0x05] : List Byte).length ≤ 2147483647 ∧
    0 + ([0x01, 0x02, 0x03, 0x04, 0x05] : List Byte).length
      ≤ ([0, 0, 0, 0, 0] : List Byte).length ∧
    (Unmask [0x01, 0x02, 0x03, 0x04, 0x05] [0xFF, 0x00, 0xFF, 0x00, 0x55]).reportsFailure
      = false ∧
    (Mask [0x01, 0x02, 0x03, 0x04, 0x05] [0xFF, 0x00, 0xFF, 0x00, 0x55] [0, 0, 0, 0, 0]
      ((0 : Nat) : Int)).reportsFailure = false ∧
    (∃ out : List Byte,
      Unmask [0x01, 0x02, 0x03, 0x04, 0x05] [0xFF, 0x00, 0xFF, 0x00, 0x55]
        = .returned true ⟨out, [0xFF, 0x00, 0xFF, 0x00, 0x55]⟩ ∧
      out[4]? = some 0xFA) ∧
    (∃ out : List Byte,
      Mask [0x01, 0x02, 0x03, 0x04, 0x05] [0xFF, 0x00, 0xFF, 0x00, 0x55] [0, 0, 0, 0, 0]
          ((0 : Nat) : Int)
        = .returned true ⟨[0x01, 0x02, 0x03, 0x04, 0x05], [0xFF, 0x00, 0xFF, 0x00, 0x55], out⟩ ∧
      out[0 + 4]? = some 0xFA) :=
  ⟨by decide, by decide,
    (mask_length_unchecked [0x01, 0x02, 0x03, 0x04, 0x05] [0xFF, 0x00, 0xFF, 0x00, 0x55]
      [0, 0, 0, 0, 0] 0 (by decide) (by decide)).1,
    (mask_length_unchecked [0x01, 0x02, 0x03, 0x04, 0x05] [0xFF, 0x00, 0xFF, 0x00, 0x55]
      [0, 0, 0, 0, 0] 0 (by decide) (by decide)).2.1,
    (mask_length_unchecked [0x01, 0x02, 0x03, 0x04, 0x05] [0xFF, 0x00, 0xFF, 0x00, 0x55]
      [0, 0, 0, 0, 0] 0 (by decide) (by decide)).2.2.1.imp
        (fun _ h => ⟨h.2.2.2 (by decide), h.2.2.1 4 0x05 0xFF rfl rfl (by decide)⟩),
    (mask_length_unchecked [0x01, 0x02, 0x03, 0x04, 0x05] [0xFF, 0x00, 0xFF, 0x00, 0x55]
      [0, 0, 0, 0, 0] 0 (by decide) (by decide)).2.2.2.imp
        (fun _ h => ⟨h.2.2.2 (by decide), h.2.2.1 4 0x05 0xFF rfl rfl (by decide)⟩)⟩

/-- C8 as stated fails: with a mask of 5 bytes both operations return `true` and transform
the bytes with the first 4 mask bytes; with a mask of 1 byte and a buffer of 2 bytes `Unmask`
reports no failure and has changed `buffer[0]` from `01` to `01 XOR FF`. -/
theorem mask_length_unchecked_counterexample :
    ([0xFF, 0x00, 0xFF, 0x00, 0x55] : List Byte).length ≠ 4 ∧
    Unmask [0x01, 0x02, 0x03, 0x04, 0x05] [0xFF, 0x00, 0xFF, 0x00, 0x55]
      = .returned true ⟨[0xFE, 0x02, 0xFC, 0x04, 0xFA], [0xFF, 0x00, 0xFF, 0x00, 0x55]⟩ ∧
    Mask [0x01, 0x02, 0x03, 0x04, 0x05] [0xFF, 0x00, 0xFF, 0x00, 0x55] [0, 0, 0, 0, 0] 0
      = .returned true ⟨[0x01, 0x02, 0x03, 0x04, 0x05], [0xFF, 0x00, 0xFF, 0x00, 0x55],
          [0xFE, 0x02, 0xFC, 0x04, 0xFA]⟩ ∧
    ([0xFF] : List Byte).length ≠ 4 ∧
    (Unmask [0x01, 0x02] [0xFF]).reportsFailure = false ∧
    (∃ mem : UnmaskMem, (Unmask [0x01, 0x02] [0xFF]).memory? = some mem ∧
      mem.buffer[0]? = some 0xFE) ∧
    ([0x01, 0x02] : List Byte)[0]? = some 0x01 :=
  ⟨by decide, by decide, by decide, by decide, by decide,
    ⟨⟨[0xFE, 0x02], [0xFF]⟩, by decide, by decide⟩, by decide⟩

/-- C9 (amended): no overrun and no overread under the stated preconditions when the sizes
are `int` values. With a 4-byte mask, a buffer that fits in memory, a non-negative offset
with `offset + source.length ≤ 2^31 - 1`, `destination.length ≥ offset + source.length`, at
most `2^31 - 1` fragments of total length at most `2^31 - 1` and a `Merge` destination whose
length is that total length: every mask index `i mod 4` is below the mask length, every write
index `offset + i` of `Mask` is below `destination.length`, the copy range of every fragment
lies inside the `Merge` destination, and the run of each of the three operations ends by
returning `true`, never in the out-of-bounds outcome. -/
theorem no_out_of_bounds (buffer mask source destination target : List Byte)
    (fragments : List (List Byte)) (offset : Nat)
    (hM : mask.length = 4) (hB : buffer.length ≤ PTRDIFF_MAX)
    (hR : offset + source.length ≤ 2147483647)
    (hD : offset + source.length ≤ destination.length)
    (hN : fragments.length ≤ 2147483647) (hT : fragments.flatten.length ≤ 2147483647)
    (hG : target.length = fragments.flatten.length) :
    (∀ i : Nat, i % 4 < mask.length) ∧
    (∀ i, i < source.length → offset + i < destination.length) ∧
    (∀ (pre post : List (List Byte)) (f : List Byte), fragments = pre ++ f :: post →
      pre.flatten.length + f.length ≤ target.length) ∧
    (∃ mem, Unmask buffer mask = .returned true mem) ∧
    (∃ mem, Mask source mask destination (offset : Int) = .returned true mem) ∧
    (∃ mem, Merge target fragments = .returned true mem) := by
  refine ⟨fun i => by omega, fun i hi => by omega, ?_, ?_, ?_, ?_⟩
  · intro pre post f h
    have hs := flatten_split_length pre post f
    rw [← h] at hs
    omega
  · obtain ⟨out, h, _⟩ := Unmask_eq buffer mask (by omega) hB
    exact ⟨_, h⟩
  · obtain ⟨out, _, _, h⟩ := Mask_eq source mask destination offset (by omega) hR
    rw [if_pos (Or.inr hD)] at h
    exact ⟨_, h⟩
  · exact ⟨_, Merge_eq target fragments hN hT (by omega)⟩

/-- C9, witness: the three operations on small inputs that meet the preconditions. -/
theorem no_out_of_bounds_witness :
    ([0xFF, 0x00, 0xFF, 0x00] : List Byte).length = 4 ∧
    ([0x01, 0x02, 0x03, 0x04, 0x05] : List Byte).length ≤ PTRDIFF_MAX ∧
    1 + ([0x01, 0x02, 0x03] : List Byte).length ≤ 2147483647 ∧
    1 + ([0x01, 0x02, 0x03] : List Byte).length ≤ ([9, 9, 9, 9, 9] : List Byte).length ∧
    ([[0x61, 0x62], [0x63], [0x64, 0x65]] : List (List Byte)).length ≤ 2147483647 ∧
    ([[0x61, 0x62], [0x63], [0x64, 0x65]] : List (List Byte)).flatten.length ≤ 2147483647 ∧
    ([0, 0, 0, 0, 0] : List Byte).length
      = ([[0x61, 0x62], [0x63], [0x64, 0x65]] : List (List Byte)).flatten.length ∧
    (∃ mem, Unmask [0x01, 0x02, 0x03, 0x04, 0x05] [0xFF, 0x00, 0xFF, 0x00]
      = .returned true mem) ∧
    (∃ mem, Mask [0x01, 0x02, 0x03] [0xFF, 0x00, 0xFF, 0x00] [9, 9, 9, 9, 9] ((1 : Nat) : Int)
      = .returned true mem) ∧
    (∃ mem, Merge [0, 0, 0, 0, 0] [[0x61, 0x62], [0x63], [0x64, 0x65]] = .returned true mem) :=
  ⟨rfl, by decide, by decide, by decide, by decide, by decide, by decide,
    (no_out_of_bounds [0x01, 0x02, 0x03, 0x04, 0x05] [0xFF, 0x00, 0xFF, 0x00]
      [0x01, 0x02, 0x03] [9, 9, 9, 9, 9] [0, 0, 0, 0, 0] [[0x61, 0x62], [0x63], [0x64, 0x65]] 1
      rfl (by decide) (by decide) (by decide) (by decide) (by decide) (by decide)).2.2.2⟩

/-- C9 as stated, without a bound on the sizes, fails for `Merge` with a single fragment of
`2^31` bytes and a destination of `2^31` bytes: the fragment length stored in an `int` is
`-2^31`, `memcpy` is called with the count `2^64 - 2^31`, and the copy leaves both buffers. -/
theorem no_out_of_bounds_counterexample :
    (List.replicate 2147483648 (0 : Byte)).length
      = ([List.replicate 2147483648 (0x61 : Byte)] : List (List Byte)).flatten.length ∧
    Merge (List.replicate 2147483648 0) [List.replicate 2147483648 0x61]
      = .outOfBounds ⟨List.replicate 2147483648 0, [List.replicate 2147483648 0x61]⟩ := by
  refine ⟨?_, Merge_single_wrap _ _ (List.length_replicate _ _)⟩
  rw [List.flatten_cons, List.flatten_nil, List.append_nil, List.length_replicate,
    List.length_replicate]

/-- C10 (amended): frame of `Mask`. For every source of length `L`, 4-byte mask, non-negative
offset with `offset + L ≤ 2^31 - 1` and destination with `destination.length ≥ offset + L`
(source and destination distinct buffers), `Mask` returns `true`, the destination keeps its
length, every destination byte at an index outside `[offset, offset + L)` is unchanged, and
the source is unchanged. Consequently a second `Mask` call into a disjoint window of the same
destination leaves the output of the first in place, and both windows hold their masked
bytes. -/
theorem Mask_frame (source mask destination source2 mask2 : List Byte) (offset offset2 : Nat)
    (hM : mask.length = 4) (hR : offset + source.length ≤ 2147483647)
    (hD : offset + source.length ≤ destination.length)
    (hM2 : mask2.length = 4) (hR2 : offset2 + source2.length ≤ 2147483647)
    (hD2 : offset2 + source2.length ≤ destination.length)
    (hdisj : offset + source.length ≤ offset2 ∨ offset2 + source2.length ≤ offset) :
    ∃ out out2 : List Byte,
      Mask source mask destination (offset : Int) = .returned true ⟨source, mask, out⟩ ∧
      out.length = destination.length ∧
      (∀ j, (j < offset ∨ offset + source.length ≤ j) → out[j]? = destination[j]?) ∧
      Mask source2 mask2 out (offset2 : Int) = .returned true ⟨source2, mask2, out2⟩ ∧
      (∀ i (hi : i < source.length), out2[offset + i]? = some (source[i] ^^^ mask[i % 4])) ∧
      (∀ i (hi : i < source2.length),
        out2[offset2 + i]? = some (source2[i] ^^^ mask2[i % 4])) := by
  obtain ⟨out, h1, h2, h3⟩ := Mask_eq source mask destination offset (by omega) hR
  rw [if_pos (Or.inr hD)] at h3
  obtain ⟨out2, g1, g2, g3⟩ := Mask_eq source2 mask2 out offset2 (by omega) hR2
  rw [if_pos (Or.inr (by omega))] at g3
  refine ⟨out, out2, h3, h1, ?_, g3, ?_, ?_⟩
  · intro j hj
    rw [h2 j, if_neg (by omega)]
  · intro i hi
    have e : offset + i - offset = i := by omega
    rw [g2 (offset + i), if_neg (by omega), h2 (offset + i), if_pos (by omega), e,
      List.getElem?_eq_getElem hi, keyAt_eq mask i (by omega)]
    rfl
  · intro i hi
    have e : offset2 + i - offset2 = i := by omega
    rw [g2 (offset2 + i), if_pos (by omega), e, List.getElem?_eq_getElem hi,
      keyAt_eq mask2 i (by omega)]
    rfl

/-- C10, witness: two sources of 2 bytes masked into the windows `[0, 2)` and `[3, 5)` of a
destination of 6 bytes. -/
theorem Mask_frame_witness :
    ([0xFF, 0x00, 0xFF, 0x00] : List Byte).length = 4 ∧
    ([0x10, 0x20, 0x30, 0x40] : List Byte).length = 4 ∧
    (0 + ([0x01, 0x02] : List Byte).length ≤ 3 ∨ 3 + ([0x03, 0x04] : List Byte).length ≤ 0) ∧
    (∃ out out2 : List Byte,
      Mask [0x01, 0x02] [0xFF, 0x00, 0xFF, 0x00] [9, 9, 9, 9, 9, 9] ((0 : Nat) : Int)
        = .returned true ⟨[0x01, 0x02], [0xFF, 0x00, 0xFF, 0x00], out⟩ ∧
      Mask [0x03, 0x04] [0x10, 0x20, 0x30, 0x40] out ((3 : Nat) : Int)
        = .returned true ⟨[0x03, 0x04], [0x10, 0x20, 0x30, 0x40], out2⟩ ∧
      out2[0 + 0]? = some 0xFE ∧ out2[3 + 0]? = some 0x13) ∧
    Mask [0x03, 0x04] [0x10, 0x20, 0x30, 0x40] [0xFE, 0x02, 9, 9, 9, 9] 3
      = .returned true ⟨[0x03, 0x04], [0x10, 0x20, 0x30, 0x40],
          [0xFE, 0x02, 9, 0x13, 0x24, 9]⟩ :=
  ⟨rfl, rfl, by decide,
    (Mask_frame [0x01, 0x02] [0xFF, 0x00, 0xFF, 0x00] [9, 9, 9, 9, 9, 9] [0x03, 0x04]
      [0x10, 0x20, 0x30, 0x40] 0 3 rfl (by decide) (by decide) rfl (by decide) (by decide)
      (by decide)).imp (fun _ h => h.imp (fun _ h =>
        ⟨h.1, h.2.2.2.1, h.2.2.2.2.1 0 (by decide), h.2.2.2.2.2 0 (by decide)⟩)),
    by decide⟩

/-- C10 as stated, for every offset, fails for the offset `2^32`, a source of 1 byte and a
destination of `2^32 + 1` bytes: `Int32Value()` turns the offset into `0`, the call returns
`true` having written `FF` at index `0`, outside the window `[2^32, 2^32 + 1)`, while the
byte in the window is not written. -/
theorem Mask_frame_counterexample :
    4294967296 + ([0] : List Byte).length ≤ (List.replicate 4294967297 (0 : Byte)).length ∧
    ∃ out : List Byte,
      Mask [0] [0xFF, 0xFF, 0xFF, 0xFF] (List.replicate 4294967297 0) 4294967296
        = .returned true ⟨[0], [0xFF, 0xFF, 0xFF, 0xFF], out⟩ ∧
      (List.replicate 4294967297 (0 : Byte))[0]? = some 0 ∧
      out[0]? = some 0xFF ∧
      out[4294967296]? = some 0 := by
  have hlen : (List.replicate 4294967297 (0 : Byte)).length = 4294967297 :=
    List.length_replicate _ _
  refine ⟨by rw [hlen]; decide, ?_⟩
  obtain ⟨out, _, h2, h3⟩ := Mask_run_to [0] [0xFF, 0xFF, 0xFF, 0xFF]
    (List.replicate 4294967297 0) 0 1 (by decide) (by decide) (by decide)
    (fun j hj => by
      have : j = 0 := by omega
      subst this
      decide)
    (fun _ => by rw [hlen]; decide) (Or.inl rfl)
  rw [if_pos (by decide)] at h3
  refine ⟨out, ?_, ?_, ?_, ?_⟩
  · rw [Mask_congr_offset _ _ _ 4294967296 ((0 : Nat) : Int) (by decide)]
    exact h3
  · rw [List.getElem?_replicate, if_pos (by decide)]
  · rw [h2 0, if_pos (by decide)]
    decide
  · rw [h2 4294967296, if_neg (by decide), List.getElem?_replicate, if_pos (by decide)]

/-- C11 (amended): chunked masking with a rotated key equals one-shot masking. With
`rot(M, k)[j] = M[(j + k) mod 4]`, for every payload `B = B1 ++ B2` of length at most
`2^31 - 1` with `n = |B1|`, every 4-byte mask `M` and all destinations `D`, `D'` of length
`|B|`: `Mask(B1, M, D, 0)` returns `true`, then `Mask(B2, rot(M, n mod 4), D, n)` returns
`true`, and `D` is then equal to the destination that the single call `Mask(B, M, D', 0)`
leaves. -/
theorem Mask_chunked_rotated (B1 B2 M D D' : List Byte) (hM : M.length = 4)
    (hL : (B1 ++ B2).length ≤ 2147483647) (hD : D.length = (B1 ++ B2).length)
    (hD' : D'.length = (B1 ++ B2).length) :
    ∃ out1 out2 : List Byte,
      Mask B1 M D 0 = .returned true ⟨B1, M, out1⟩ ∧
      Mask B2 (rot M (B1.length % 4)) out1 (B1.length : Int)
        = .returned true ⟨B2, rot M (B1.length % 4), out2⟩ ∧
      Mask (B1 ++ B2) M D' 0 = .returned true ⟨B1 ++ B2, M, out2⟩ := by
  rw [List.length_append] at hL hD hD'
  obtain ⟨out1, h1, h2, h3⟩ := Mask_eq B1 M D 0 (by omega) (by omega)
  rw [if_pos (Or.inr (by omega))] at h3
  obtain ⟨out2, g1, g2, g3⟩ := Mask_eq B2 (rot M (B1.length % 4)) out1 B1.length
    (by rw [rot_length]) (by omega)
  rw [if_pos (Or.inr (by omega))] at g3
  obtain ⟨out, k1, k2, k3⟩ := Mask_eq (B1 ++ B2) M D' 0 (by omega)
    (by rw [List.length_append]; omega)
  rw [if_pos (Or.inr (by rw [List.length_append]; omega))] at k3
  have e : out = out2 := by
    apply List.ext_getElem?
    intro j
    rw [k2 j, g2 j, List.length_append]
    by_cases c1 : j < B1.length
    · rw [if_pos (by omega), if_neg (by omega), h2 j, if_pos (by omega), Nat.sub_zero,
        List.getElem?_append_left c1]
    · by_cases c2 : j < B1.length + B2.length
      · have e2 : B1.length + (j - B1.length) = j := by omega
        rw [if_pos (by omega), if_pos (by omega), Nat.sub_zero,
          List.getElem?_append_right (by omega), keyAt_rot M B1.length (j - B1.length), e2]
      · rw [if_neg (by omega), if_neg (by omega), h2 j, if_neg (by omega),
          List.getElem?_eq_none (by omega : D'.length ≤ j),
          List.getElem?_eq_none (by omega : D.length ≤ j)]
  rw [e] at k3
  exact ⟨out1, out2, h3, g3, k3⟩

/-- C11, witness: a payload of 5 bytes cut after 3 bytes; the second chunk is masked with the
key rotated by 3. -/
theorem Mask_chunked_rotated_witness :
    ([0x10, 0x20, 0x30, 0x40] : List Byte).length = 4 ∧
    (([1, 2, 3] : List Byte) ++ [4, 5]).length ≤ 2147483647 ∧
    ([0, 0, 0, 0, 0] : List Byte).length = (([1, 2, 3] : List Byte) ++ [4, 5]).length ∧
    ([9, 9, 9, 9, 9] : List Byte).length = (([1, 2, 3] : List Byte) ++ [4, 5]).length ∧
    (∃ out1 out2 : List Byte,
      Mask [1, 2, 3] [0x10, 0x20, 0x30, 0x40] [0, 0, 0, 0, 0] 0
        = .returned true ⟨[1, 2, 3], [0x10, 0x20, 0x30, 0x40], out1⟩ ∧
      Mask [4, 5] (rot [0x10, 0x20, 0x30, 0x40] (([1, 2, 3] : List Byte).length % 4)) out1
          ((([1, 2, 3] : List Byte).length : Nat) : Int)
        = .returned true
            ⟨[4, 5], rot [0x10, 0x20, 0x30, 0x40] (([1, 2, 3] : List Byte).length % 4), out2⟩ ∧
      Mask ([1, 2, 3] ++ [4, 5]) [0x10, 0x20, 0x30, 0x40] [9, 9, 9, 9, 9] 0
        = .returned true ⟨[1, 2, 3] ++ [4, 5], [0x10, 0x20, 0x30, 0x40], out2⟩) ∧
    rot [0x10, 0x20, 0x30, 0x40] 3 = [0x40, 0x10, 0x20, 0x30] ∧
    Mask [4, 5] [0x40, 0x10, 0x20, 0x30] [0x11, 0x22, 0x33, 0, 0] 3
      = .returned true ⟨[4, 5], [0x40, 0x10, 0x20, 0x30], [0x11, 0x22, 0x33, 0x44, 0x15]⟩ ∧
    Mask [1, 2, 3, 4, 5] [0x10, 0x20, 0x30, 0x40] [9, 9, 9, 9, 9] 0
      = .returned true ⟨[1, 2, 3, 4, 5], [0x10, 0x20, 0x30, 0x40],
          [0x11, 0x22, 0x33, 0x44, 0x15]⟩ :=
  ⟨rfl, by decide, by decide, by decide,
    Mask_chunked_rotated [1, 2, 3] [4, 5] [0x10, 0x20, 0x30, 0x40] [0, 0, 0, 0, 0]
      [9, 9, 9, 9, 9] rfl (by decide) (by decide) (by decide),
    by decide, by decide, by decide⟩

/-- C11 as stated, for every payload, fails for `B1` of `2^31` zero bytes and `B2 = [00]`
with the mask `[FF,FF,FF,FF]` and `D` of `2^31 + 1` zero bytes: the first call returns
`true`; the offset `n = 2^31` of the second call is turned into `-2^31` by `Int32Value()`,
so its write does not go to `D[2^31]`, which still holds `00`, while the single call on
the whole payload leaves `00 XOR FF` there. -/
theorem Mask_chunked_rotated_counterexample :
    (List.replicate 2147483649 (0 : Byte)).length
      = (List.replicate 2147483648 (0 : Byte) ++ [0]).length ∧
    (List.replicate 2147483649 (1 : Byte)).length
      = (List.replicate 2147483648 (0 : Byte) ++ [0]).length ∧
    ∃ out1 out : List Byte,
      Mask (List.replicate 2147483648 0) [0xFF, 0xFF, 0xFF, 0xFF]
          (List.replicate 2147483649 0) 0
        = .returned true ⟨List.replicate 2147483648 0, [0xFF, 0xFF, 0xFF, 0xFF], out1⟩ ∧
      (∃ mem : MaskMem,
        (Mask [0] (rot [0xFF, 0xFF, 0xFF, 0xFF] ((List.replicate 2147483648 (0 : Byte)).length % 4))
          out1 (((List.replicate 2147483648 (0 : Byte)).length : Nat) : Int)).memory? = some mem ∧
        mem.output[2147483648]? = some 0) ∧
      Mask (List.replicate 2147483648 0 ++ [0]) [0xFF, 0xFF, 0xFF, 0xFF]
          (List.replicate 2147483649 1) 0
        = .returned true
            ⟨List.replicate 2147483648 0 ++ [0], [0xFF, 0xFF, 0xFF, 0xFF], out⟩ ∧
      out[2147483648]? = some 0xFF := by
  have hlenD : (List.replicate 2147483649 (0 : Byte)).length = 2147483649 :=
    List.length_replicate _ _
  have hlenD' : (List.replicate 2147483649 (1 : Byte)).length = 2147483649 :=
    List.length_replicate _ _
  have hlenB1 : (List.replicate 2147483648 (0 : Byte)).length = 2147483648 :=
    List.length_replicate _ _
  have hlenB : (List.replicate 2147483648 (0 : Byte) ++ [0]).length = 2147483649 := by
    rw [List.length_append, hlenB1]
    rfl
  refine ⟨by rw [hlenD, hlenB], by rw [hlenD', hlenB], ?_⟩
  obtain ⟨out1, _, h2, h3⟩ := Mask_fit_eq (List.replicate 2147483648 0)
    [0xFF, 0xFF, 0xFF, 0xFF] (List.replicate 2147483649 0) 0 (by decide)
    (by rw [hlenB1]; decide) (by decide)
  rw [hlenB1, hlenD, if_pos (by decide)] at h3
  obtain ⟨out, _, k2, k3⟩ := Mask_fit_eq (List.replicate 2147483648 0 ++ [0])
    [0xFF, 0xFF, 0xFF, 0xFF] (List.replicate 2147483649 1) 0 (by decide)
    (by rw [hlenB]; decide) (by decide)
  rw [hlenB, hlenD', if_pos (by decide)] at k3
  refine ⟨out1, out, h3, ⟨⟨[0],
    rot [0xFF, 0xFF, 0xFF, 0xFF] ((List.replicate 2147483648 (0 : Byte)).length % 4), out1⟩,
    ?_, ?_⟩, k3, ?_⟩
  · rw [Mask_negative_offset _ _ _ _ (by rw [hlenB1]; decide) (by decide)]
    rfl
  · show out1[2147483648]? = some 0
    rw [h2 2147483648, hlenB1, if_neg (by decide), List.getElem?_replicate, if_pos (by decide)]
  · rw [k2 2147483648, hlenB, hlenD', if_pos (by decide),
      List.getElem?_append_right (by rw [hlenB1]), hlenB1]
    decide

/-- C12: empty-input no-ops. For every mask `M`, in particular every 4-byte mask,
`Unmask([], M)` returns `true` and the buffer is still empty; and for every destination of
length 0, `Merge(dest, [])` returns `true` and the destination is still empty. -/
theorem empty_input_noop (M dest : List Byte) (hd : dest.length = 0) :
    Unmask [] M = .returned true ⟨[], M⟩ ∧
    Merge dest [] = .returned true ⟨dest, []⟩ ∧ dest = [] :=
  ⟨rfl, rfl, List.eq_nil_of_length_eq_zero hd⟩

/-- C12, witness: the mask `[FF,00,FF,00]` and the empty destination. -/
theorem empty_input_noop_witness :
    ([] : List Byte).length = 0 ∧
    Unmask [] [0xFF, 0x00, 0xFF, 0x00] = .returned true ⟨[], [0xFF, 0x00, 0xFF, 0x00]⟩ ∧
    Merge [] [] = .returned true ⟨[], []⟩ ∧ ([] : List Byte) = [] :=
  ⟨rfl, empty_input_noop [0xFF, 0x00, 0xFF, 0x00] [] rfl⟩

/-- C13 (amended): the key phase follows the position within the source of each call, not the
destination offset. When `Mask` masks a chunk `B2` into a larger buffer at destination offset
`o = |B1|`, the key byte applied to `B2[i]`, written at destination position `o + i`, is
`mask[i mod 4]`. So for every payload `B = B1 ++ B2` of length at most `2^31 - 1` and every
4-byte mask `M`, `Mask(B1, M, D, 0)` followed by `Mask(B2, M, D, |B1|)` with the same
unrotated mask leaves `D` equal to the result of `Mask(B, M, D', 0)` when `|B1|` is a
multiple of 4. -/
theorem Mask_key_phase (B1 B2 M D D' : List Byte) (hM : M.length = 4)
    (hL : (B1 ++ B2).length ≤ 2147483647) (hD : D.length = (B1 ++ B2).length)
    (hD' : D'.length = (B1 ++ B2).length) :
    ∃ out1 out2 out : List Byte,
      Mask B1 M D 0 = .returned true ⟨B1, M, out1⟩ ∧
      Mask B2 M out1 (B1.length : Int) = .returned true ⟨B2, M, out2⟩ ∧
      Mask (B1 ++ B2) M D' 0 = .returned true ⟨B1 ++ B2, M, out⟩ ∧
      (∀ i (hi : i < B2.length), out2[B1.length + i]? = some (B2[i] ^^^ M[i % 4])) ∧
      (B1.length % 4 = 0 → out2 = out) := by
  rw [List.length_append] at hL hD hD'
  obtain ⟨out1, h1, h2, h3⟩ := Mask_eq B1 M D 0 (by omega) (by omega)
  rw [if_pos (Or.inr (by omega))] at h3
  obtain ⟨out2, g1, g2, g3⟩ := Mask_eq B2 M out1 B1.length (by omega) (by omega)
  rw [if_pos (Or.inr (by omega))] at g3
  obtain ⟨out, k1, k2, k3⟩ := Mask_eq (B1 ++ B2) M D' 0 (by omega)
    (by rw [List.length_append]; omega)
  rw [if_pos (Or.inr (by rw [List.length_append]; omega))] at k3
  refine ⟨out1, out2, out, h3, g3, k3, ?_, ?_⟩
  · intro i hi
    have e : B1.length + i - B1.length = i := by omega
    rw [g2 (B1.length + i), if_pos (by omega), e, List.getElem?_eq_getElem hi,
      keyAt_eq M i (by omega)]
    rfl
  · intro h4
    apply Eq.symm
    apply List.ext_getElem?
    intro j
    rw [k2 j, g2 j, List.length_append]
    by_cases c1 : j < B1.length
    · rw [if_pos (by omega), if_neg (by omega), h2 j, if_pos (by omega), Nat.sub_zero,
        List.getElem?_append_left c1]
    · by_cases c2 : j < B1.length + B2.length
      · rw [if_pos (by omega), if_pos (by omega), Nat.sub_zero,
          List.getElem?_append_right (by omega),
          keyAt_congr M (j - B1.length) j (by omega)]
      · rw [if_neg (by omega), if_neg (by omega), h2 j, if_neg (by omega),
          List.getElem?_eq_none (by omega : D'.length ≤ j),
          List.getElem?_eq_none (by omega : D.length ≤ j)]

/-- C13, witness: a payload of 6 bytes cut after 4 bytes, a multiple of 4. -/
theorem Mask_key_phase_witness :
    ([0x10, 0x20, 0x30, 0x40] : List Byte).length = 4 ∧
    (([1, 2, 3, 4] : List Byte) ++ [5, 6]).length ≤ 2147483647 ∧
    ([0, 0, 0, 0, 0, 0] : List Byte).length = (([1, 2, 3, 4] : List Byte) ++ [5, 6]).length ∧
    ([9, 9, 9, 9, 9, 9] : List Byte).length = (([1, 2, 3, 4] : List Byte) ++ [5, 6]).length ∧
    (∃ out1 out2 out : List Byte,
      Mask [1, 2, 3, 4] [0x10, 0x20, 0x30, 0x40] [0, 0, 0, 0, 0, 0] 0
        = .returned true ⟨[1, 2, 3, 4], [0x10, 0x20, 0x30, 0x40], out1⟩ ∧
      Mask [5, 6] [0x10, 0x20, 0x30, 0x40] out1 ((([1, 2, 3, 4] : List Byte).length : Nat) : Int)
        = .returned true ⟨[5, 6], [0x10, 0x20, 0x30, 0x40], out2⟩ ∧
      Mask ([1, 2, 3, 4] ++ [5, 6]) [0x10, 0x20, 0x30, 0x40] [9, 9, 9, 9, 9, 9] 0
        = .returned true ⟨[1, 2, 3, 4] ++ [5, 6], [0x10, 0x20, 0x30, 0x40], out⟩ ∧
      out2[([1, 2, 3, 4] : List Byte).length + 0]? = some 0x15 ∧
      out2 = out) ∧
    Mask [1, 2, 3, 4, 5, 6] [0x10, 0x20, 0x30, 0x40] [9, 9, 9, 9, 9, 9] 0
      = .returned true ⟨[1, 2, 3, 4, 5, 6], [0x10, 0x20, 0x30, 0x40],
          [0x11, 0x22, 0x33, 0x44, 0x15, 0x26]⟩ :=
  ⟨rfl, by decide, by decide, by decide,
    (Mask_key_phase [1, 2, 3, 4] [5, 6] [0x10, 0x20, 0x30, 0x40] [0, 0, 0, 0, 0, 0]
      [9, 9, 9, 9, 9, 9] rfl (by decide) (by decide) (by decide)).imp
      (fun _ h => h.imp (fun _ h => h.imp (fun _ h =>
        ⟨h.1, h.2.1, h.2.2.1, h.2.2.2.1 0 (by decide), h.2.2.2.2 (by decide)⟩))),
    by decide⟩

/-- C13 as stated fails for `B1 = [00]`, `B2 = [00]` and the mask `[10,20,30,40]`: the second
call writes `B2[0] XOR mask[0] = 10` at destination position 1, not
`B2[0] XOR mask[(1 + 0) mod 4] = 20`, so the chunked result `[10,10]` differs from the
one-shot result `[10,20]`. -/
theorem Mask_key_phase_counterexample :
    Mask [0] [0x10, 0x20, 0x30, 0x40] [0, 0] 0
      = .returned true ⟨[0], [0x10, 0x20, 0x30, 0x40], [0x10, 0]⟩ ∧
    Mask [0] [0x10, 0x20, 0x30, 0x40] [0x10, 0] 1
      = .returned true ⟨[0], [0x10, 0x20, 0x30, 0x40], [0x10, 0x10]⟩ ∧
    Mask ([0] ++ [0]) [0x10, 0x20, 0x30, 0x40] [0, 0] 0
      = .returned true ⟨[0] ++ [0], [0x10, 0x20, 0x30, 0x40], [0x10, 0x20]⟩ ∧
    ([0x10, 0x20, 0x30, 0x40] : List Byte)[(1 + 0) % 4]? = some 0x20 ∧
    ([0x10, 0x10] : List Byte) ≠ [0x10, 0x20] := by
  decide

/-- C14 (amended): `Merge` into an over-sized destination. For every list `F` of at most
`2^31 - 1` fragments with total length `S ≤ 2^31 - 1` and every destination with
`destination.length > S`, `Merge` returns `true`, `destination[0 .. S)` is the concatenation
of `F` in order, `destination[S ..)` is unchanged and the destination length is unchanged:
the exact-length precondition is not enforced, the destination is neither padded nor
rejected. -/
theorem Merge_oversized (destination : List Byte) (fragments : List (List Byte))
    (hN : fragments.length ≤ 2147483647) (hT : fragments.flatten.length ≤ 2147483647)
    (hD : fragments.flatten.length < destination.length) :
    ∃ out : List Byte, Merge destination fragments = .returned true ⟨out, fragments⟩ ∧
      out.take fragments.flatten.length = fragments.flatten ∧
      out.drop fragments.flatten.length = destination.drop fragments.flatten.length ∧
      out.length = destination.length := by
  refine ⟨_, Merge_eq destination fragments hN hT (by omega), ?_, ?_, ?_⟩
  · rw [List.take_left']
    rfl
  · rw [List.drop_left']
    rfl
  · rw [List.length_append, List.length_drop]
    omega

/-- C14, witness: fragments of 3 bytes in total merged into a destination of 5 bytes. -/
theorem Merge_oversized_witness :
    ([[0x61, 0x62], [0x63]] : List (List Byte)).length ≤ 2147483647 ∧
    ([[0x61, 0x62], [0x63]] : List (List Byte)).flatten.length ≤ 2147483647 ∧
    ([[0x61, 0x62], [0x63]] : List (List Byte)).flatten.length
      < ([1, 2, 3, 4, 5] : List Byte).length ∧
    (∃ out : List Byte,
      Merge [1, 2, 3, 4, 5] [[0x61, 0x62], [0x63]]
        = .returned true ⟨out, [[0x61, 0x62], [0x63]]⟩ ∧
      out.take ([[0x61, 0x62], [0x63]] : List (List Byte)).flatten.length
        = ([[0x61, 0x62], [0x63]] : List (List Byte)).flatten ∧
      out.drop ([[0x61, 0x62], [0x63]] : List (List Byte)).flatten.length
        = List.drop ([[0x61, 0x62], [0x63]] : List (List Byte)).flatten.length [1, 2, 3, 4, 5] ∧
      out.length = ([1, 2, 3, 4, 5] : List Byte).length) ∧
    Merge [1, 2, 3, 4, 5] [[0x61, 0x62], [0x63]]
      = .returned true ⟨[0x61, 0x62, 0x63, 4, 5], [[0x61, 0x62], [0x63]]⟩ :=
  ⟨by decide, by decide, by decide,
    Merge_oversized [1, 2, 3, 4, 5] [[0x61, 0x62], [0x63]] (by decide) (by decide)
      (by decide),
    by decide⟩

/-- C14 as stated, for every fragment list, fails for a single fragment of `2^31` bytes and
a destination of `2^31 + 1` bytes: the fragment length stored in an `int` is `-2^31`,
`memcpy` is called with the count `2^64 - 2^31`, the copy is out of bounds and `Merge` does
not return success. -/
theorem Merge_oversized_counterexample :
    ([List.replicate 2147483648 (0x61 : Byte)] : List (List Byte)).flatten.length
      < (List.replicate 2147483649 (0 : Byte)).length ∧
    Merge (List.replicate 2147483649 0) [List.replicate 2147483648 0x61]
      = .outOfBounds ⟨List.replicate 2147483649 0, [List.replicate 2147483648 0x61]⟩ := by
  refine ⟨?_, Merge_single_wrap _ _ (List.length_replicate _ _)⟩
  rw [List.flatten_cons, List.flatten_nil, List.append_nil, List.length_replicate,
    List.length_replicate]
  decide

/-- C15 (amended): `Unmask` commutes with `Merge` on 4-aligned fragments. For every 4-byte
mask `M`, every list `F` of at most `2^31 - 1` fragments of total length at most `2^31 - 1`
in which every fragment except possibly the last has a length divisible by 4, and every
destination of that total length: unmasking each fragment separately with `M` succeeds,
merging the results succeeds, merging the original fragments succeeds and unmasking the
merged buffer with `M` succeeds, and both ways give the same destination. And for some
fragment list with a non-last fragment whose length is not divisible by 4 the two results
differ. -/
theorem Unmask_Merge_commute (M dest : List Byte) (F : List (List Byte)) (hM : M.length = 4)
    (hN : F.length ≤ 2147483647) (hT : F.flatten.length ≤ 2147483647)
    (hD : dest.length = F.flatten.length) (hA : ∀ f ∈ F.dropLast, f.length % 4 = 0) :
    (∃ (G : List (List Byte)) (d d0 : List Byte),
      List.Forall₂ (fun f g => Unmask f M = .returned true ⟨g, M⟩) F G ∧
      Merge dest G = .returned true ⟨d, G⟩ ∧
      Merge dest F = .returned true ⟨d0, F⟩ ∧
      Unmask d0 M = .returned true ⟨d, M⟩) ∧
    (∃ (G0 : List (List Byte)) (d1 d2 : List Byte),
      ([0] : List Byte) ∈ ([[0], [0]] : List (List Byte)).dropLast ∧
      ([0] : List Byte).length % 4 ≠ 0 ∧
      List.Forall₂ (fun f g => Unmask f [0x10, 0x20, 0x30, 0x40]
        = .returned true ⟨g, [0x10, 0x20, 0x30, 0x40]⟩) [[0], [0]] G0 ∧
      Merge [9, 9] G0 = .returned true ⟨d1, G0⟩ ∧
      Merge [9, 9] [[0], [0]] = .returned true ⟨[0, 0], [[0], [0]]⟩ ∧
      Unmask [0, 0] [0x10, 0x20, 0x30, 0x40] = .returned true ⟨d2, [0x10, 0x20, 0x30, 0x40]⟩ ∧
      d1 ≠ d2) := by
  constructor
  · obtain ⟨G, G1, G2, G3, G4⟩ := exists_unmasked M (by omega) F hT hA
    obtain ⟨d, u1, u2, u3⟩ := Unmask_small F.flatten M (by omega) hT
    have e : G.flatten = d := by
      apply List.ext_getElem?
      intro j
      rw [G4 j, u3 j]
    refine ⟨G, d, F.flatten, G1, ?_, ?_, u1⟩
    · rw [Merge_eq dest G (by omega) (by omega) (by omega), List.drop_of_length_le (by omega),
        List.append_nil, e]
    · rw [Merge_eq dest F hN hT (by omega), List.drop_of_length_le (by omega),
        List.append_nil]
  · exact ⟨[[0x10], [0x10]], [0x10, 0x10], [0x10, 0x20], by decide, by decide,
      List.Forall₂.cons (by decide) (List.Forall₂.cons (by decide) List.Forall₂.nil),
      by decide, by decide, by decide, by decide⟩

/-- C15, witness: fragments of 4 and 1 bytes. -/
theorem Unmask_Merge_commute_witness :
    ([0x10, 0x20, 0x30, 0x40] : List Byte).length = 4 ∧
    ([[1, 2, 3, 4], [5]] : List (List Byte)).length ≤ 2147483647 ∧
    ([[1, 2, 3, 4], [5]] : List (List Byte)).flatten.length ≤ 2147483647 ∧
    ([9, 9, 9, 9, 9] : List Byte).length
      = ([[1, 2, 3, 4], [5]] : List (List Byte)).flatten.length ∧
    (∀ f ∈ ([[1, 2, 3, 4], [5]] : List (List Byte)).dropLast, f.length % 4 = 0) ∧
    (∃ (G : List (List Byte)) (d d0 : List Byte),
      List.Forall₂ (fun f g => Unmask f [0x10, 0x20, 0x30, 0x40]
        = .returned true ⟨g, [0x10, 0x20, 0x30, 0x40]⟩) [[1, 2, 3, 4], [5]] G ∧
      Merge [9, 9, 9, 9, 9] G = .returned true ⟨d, G⟩ ∧
      Merge [9, 9, 9, 9, 9] [[1, 2, 3, 4], [5]] = .returned true ⟨d0, [[1, 2, 3, 4], [5]]⟩ ∧
      Unmask d0 [0x10, 0x20, 0x30, 0x40] = .returned true ⟨d, [0x10, 0x20, 0x30, 0x40]⟩) ∧
    Unmask [1, 2, 3, 4, 5] [0x10, 0x20, 0x30, 0x40]
      = .returned true ⟨[0x11, 0x22, 0x33, 0x44, 0x15], [0x10, 0x20, 0x30, 0x40]⟩ ∧
    Merge [9, 9, 9, 9, 9] [[0x11, 0x22, 0x33, 0x44], [0x15]]
      = .returned true ⟨[0x11, 0x22, 0x33, 0x44, 0x15], [[0x11, 0x22, 0x33, 0x44], [0x15]]⟩ :=
  ⟨rfl, by decide, by decide, by decide, by decide,
    (Unmask_Merge_commute [0x10, 0x20, 0x30, 0x40] [9, 9, 9, 9, 9] [[1, 2, 3, 4], [5]] rfl
      (by decide) (by decide) (by decide) (by decide)).1,
    by decide, by decide⟩

/-- C15 as stated, for every fragment list, fails for the `2^31` fragments
`[00,00,00,00], [], [], ...` (all lengths divisible by 4) and a destination of 4 bytes:
`arrayLength`, an `int`, is `-2^31`, so neither `Merge` copies anything. Unmasking the
fragments and merging leaves the destination `[00,00,00,00]`, merging and unmasking the
destination gives `[FF,FF,FF,FF]`. -/
theorem Unmask_Merge_commute_counterexample :
    ([0, 0, 0, 0] : List Byte).length
      = (([0, 0, 0, 0] : List Byte) :: List.replicate 2147483647 []).flatten.length ∧
    List.Forall₂ (fun f g => Unmask f [0xFF, 0xFF, 0xFF, 0xFF]
        = .returned true ⟨g, [0xFF, 0xFF, 0xFF, 0xFF]⟩)
      (([0, 0, 0, 0] : List Byte) :: List.replicate 2147483647 [])
      (([0xFF, 0xFF, 0xFF, 0xFF] : List Byte) :: List.replicate 2147483647 []) ∧
    Merge [0, 0, 0, 0] (([0xFF, 0xFF, 0xFF, 0xFF] : List Byte) :: List.replicate 2147483647 [])
      = .returned true
          ⟨[0, 0, 0, 0], ([0xFF, 0xFF, 0xFF, 0xFF] : List Byte) :: List.replicate 2147483647 []⟩ ∧
    Merge [0, 0, 0, 0] (([0, 0, 0, 0] : List Byte) :: List.replicate 2147483647 [])
      = .returned true
          ⟨[0, 0, 0, 0], ([0, 0, 0, 0] : List Byte) :: List.replicate 2147483647 []⟩ ∧
    Unmask [0, 0, 0, 0] [0xFF, 0xFF, 0xFF, 0xFF]
      = .returned true ⟨[0xFF, 0xFF, 0xFF, 0xFF], [0xFF, 0xFF, 0xFF, 0xFF]⟩ ∧
    ([0, 0, 0, 0] : List Byte) ≠ [0xFF, 0xFF, 0xFF, 0xFF] := by
  have hlen : ∀ a : List Byte,
      ¬ (0 : Int) < toInt (((a :: List.replicate 2147483647 []).length % 4294967296 : Nat) :
        Int) := by
    intro a
    rw [List.length_cons, List.length_replicate]
    decide
  refine ⟨?_, ?_, Merge_no_iteration _ _ (hlen _), Merge_no_iteration _ _ (hlen _),
    by decide, by decide⟩
  · rw [List.flatten_cons, List.flatten_replicate_nil, List.append_nil]
  · exact List.Forall₂.cons (by decide) (forall₂_replicate _ _ _ (by decide) _)

/-- C17: running offset of `Merge`, an `int` accumulated from fragment lengths narrowed to
`int`. For every fragment list whose total length is at most `2^31 - 1`: no fragment length
is truncated by the narrowing; at the start of iteration `k` the offset is exactly the sum of
the lengths of the fragments `0 .. k - 1`, without wrap-around; the offset is non-decreasing
in `k`; and iteration `k` calls `memcpy` on `destination + offset_k` with the count `len_k`
and leaves the offset at the sum of the lengths of the fragments `0 .. k`. When moreover
the array has at most `2^31 - 1` fragments and the destination holds the total length, the
loop makes one iteration per fragment, `Merge` returns `true`, and fragment `k` lies in
`destination[offset_k .. offset_k + len_k)`. -/
theorem Merge_running_offset (destination : List Byte) (fragments : List (List Byte))
    (hT : fragments.flatten.length ≤ 2147483647) :
    (∀ f ∈ fragments, toInt ((Length f : Nat) : Int) = (f.length : Int) ∧
      toSizeT (toInt ((Length f : Nat) : Int)) = f.length) ∧
    (∀ k o, (MergeOffsets destination fragments)[k]? = some o →
      o = (((fragments.take k).flatten.length : Nat) : Int)) ∧
    (∀ k o o1, (MergeOffsets destination fragments)[k]? = some o →
      (MergeOffsets destination fragments)[k + 1]? = some o1 → o ≤ o1) ∧
    (∀ (buffer : List Byte) (k : Nat) (f : List Byte), fragments[k]? = some f →
      mergeBody fragments (k : Int) (((fragments.take k).flatten.length : Nat) : Int) buffer
        = (memcpy buffer (((fragments.take k).flatten.length : Nat) : Int) f f.length).map
            (fun b => ((((fragments.take (k + 1)).flatten.length : Nat) : Int), b))) ∧
    (fragments.length ≤ 2147483647 → fragments.flatten.length ≤ destination.length →
      ∃ out : List Byte, Merge destination fragments = .returned true ⟨out, fragments⟩ ∧
        (MergeOffsets destination fragments).length = fragments.length ∧
        ∀ (k : Nat) (f : List Byte), fragments[k]? = some f → ∀ j (hj : j < f.length),
          out[(fragments.take k).flatten.length + j]? = some f[j]) := by
  have hfrag : ∀ (k : Nat) (f : List Byte), fragments[k]? = some f →
      (fragments.take k).flatten.length + f.length ≤ 2147483647 := by
    intro k f hf
    have h1 := prefix_succ fragments k f hf
    have h2 := prefix_le_total fragments (k + 1)
    omega
  have hspec : ∀ k o, (MergeOffsets destination fragments)[k]? = some o →
      o = (((fragments.take k).flatten.length : Nat) : Int) := by
    intro k o h
    have key := mergeOffsets_spec fragments
      (toInt ((fragments.length % 4294967296 : Nat) : Int))
      (by have := toInt_lt ((fragments.length % 4294967296 : Nat) : Int); omega) hT
      (fragments.length + 1) 0 destination (by omega) k o h
    rw [Nat.zero_add] at key
    exact key
  refine ⟨?_, hspec, ?_, ?_, ?_⟩
  · intro f hf
    obtain ⟨k, hk⟩ := List.getElem?_of_mem hf
    have := hfrag k f hk
    exact sizes_of_lt f (by omega)
  · intro k o o1 h h1
    rw [hspec k o h, hspec (k + 1) o1 h1]
    have := prefix_mono fragments k
    omega
  · intro buffer k f hf
    have hb := hfrag k f hf
    obtain ⟨e1, e2⟩ := sizes_of_lt f (by omega)
    rw [mergeBody, getAt_natCast, hf]
    show (memcpy buffer (((fragments.take k).flatten.length : Nat) : Int) f
      (toSizeT (toInt ((Length f : Nat) : Int)))).map
        (fun buffer1 => (toInt ((((fragments.take k).flatten.length : Nat) : Int)
          + toInt ((Length f : Nat) : Int)), buffer1)) = _
    rw [e2, e1, toInt_add_natCast _ _ (by omega), ← prefix_succ fragments k f hf]
  · intro hN hD
    have hM := Merge_eq destination fragments hN hT hD
    refine ⟨_, hM, ?_, ?_⟩
    · have hM2 := hM
      rw [Merge, Nat.mod_eq_of_lt (by omega), toInt_natCast _ (by omega)] at hM2
      have key := mergeOffsets_length fragments (fragments.length : Int) (by omega)
        (fragments.length + 1) 0 0 destination (by omega) _ hM2
      have h0 : toInt ((0 : Nat) : Int) = 0 := by decide
      rw [h0] at key
      rw [MergeOffsets, Nat.mod_eq_of_lt (by omega), toInt_natCast _ (by omega), key]
      omega
    · intro k f hf j hj
      have hle := hfrag k f hf
      have h1 := prefix_succ fragments k f hf
      have h2 := prefix_le_total fragments (k + 1)
      rw [List.getElem?_append_left (by omega), flatten_getElem?_at fragments k j f hf hj,
        List.getElem?_eq_getElem hj]

/-- C17, witness: fragments of 2, 1 and 2 bytes are written from the offsets 0, 2 and 3. -/
theorem Merge_running_offset_witness :
    ([[0x61, 0x62], [0x63], [0x64, 0x65]] : List (List Byte)).flatten.length ≤ 2147483647 ∧
    (∀ k o, (MergeOffsets [0, 0, 0, 0, 0] [[0x61, 0x62], [0x63], [0x64, 0x65]])[k]? = some o →
      o = (((List.take k ([[0x61, 0x62], [0x63], [0x64, 0x65]] : List (List Byte))).flatten.length
        : Nat) : Int)) ∧
    MergeOffsets [0, 0, 0, 0, 0] [[0x61, 0x62], [0x63], [0x64, 0x65]] = [0, 2, 3] ∧
    Merge [0, 0, 0, 0, 0] [[0x61, 0x62], [0x63], [0x64, 0x65]]
      = .returned true ⟨[0x61, 0x62, 0x63, 0x64, 0x65], [[0x61, 0x62], [0x63], [0x64, 0x65]]⟩ :=
  ⟨by decide,
    (Merge_running_offset [0, 0, 0, 0, 0] [[0x61, 0x62], [0x63], [0x64, 0x65]]
      (by decide)).2.1,
    by decide, by decide⟩

end BufferUtil
